import Mathlib

/-!
Verification of the action-menu library (Pebble SDK2 `action_menu.c` /
`action_menu.h`): a shallow embedding of the hierarchy builder, the
post-order hierarchy destructor, and the session / navigation state
machine, together with theorems settling the specification claims.

Modelling conventions:
* Heap-allocated `ActionMenuLevel` objects live in an arena `Heap`
  (a list of level records); a C `ActionMenuLevel *` is an `Option Nat`
  index into the arena (`none` = `NULL`).
* Items are stored inline inside their owning level's `items` list,
  mirroring the C `ActionMenuItem**` array whose first `num_items`
  slots are populated; an item is identified by the pair
  (owning level index, slot index).
* `malloc` outcomes are explicit `Bool` oracles (`...AllocOk`), so
  allocation failure paths of the C code are reachable in the model.
* Fallible C code (dereference of an invalid or `NULL` pointer where
  the C source does not check for it) is modelled with `Except Unit`
  (`Except.error ()` = fault) or `Option` (`none` = fault).
* `uint16_t` arithmetic that can overflow is taken modulo 65536
  (`child->level = level->level + 1` is the only such write; all other
  `uint16_t` increments are guarded below 65535 by the capacity check).
* The external animation/menu-layer/window collaborators are modelled
  by explicit state fields (`anim`, `bg_x`, `selected_row`,
  `window_open`, `result_pushed`, `reloads`) and by the frame position
  `fx` read by `animate_menu` when a handler runs.
-/

set_option maxHeartbeats 1000000

/-- Display-mode enum `ActionMenuLevelDisplayMode` from `action_menu.h`. -/
inductive ActionMenuLevelDisplayMode where
  | wide
  | thin
deriving DecidableEq, Repr

/-- Model of `struct ActionMenuItem`: owned label (`none` = `NULL`),
opaque action-data pointer, optional action callback (an opaque
callback identifier), optional child-level pointer. -/
structure ActionMenuItem where
  label : Option String
  action_data : Option Nat
  cb : Option Nat
  child : Option Nat
deriving DecidableEq, Repr

/-- Model of `struct ActionMenuLevel`: fixed capacity `max_items`,
current count `num_items`, the populated prefix of the items array
(stored inline), display mode, depth counter `level` and parent
back-pointer. -/
structure ActionMenuLevel where
  max_items : Nat
  num_items : Nat
  items : List ActionMenuItem
  display_mode : ActionMenuLevelDisplayMode
  level : Nat
  parent : Option Nat
deriving DecidableEq, Repr

/-- The arena of live `ActionMenuLevel` objects. -/
abbrev Heap := List ActionMenuLevel

/-- Decidable equality for `Except` results (used to evaluate the
model on concrete inputs). -/
instance exceptDecidableEq {ε α : Type} [DecidableEq ε] [DecidableEq α] :
    DecidableEq (Except ε α)
  | Except.error e, Except.error e' =>
    if h : e = e' then isTrue (congrArg Except.error h)
    else isFalse (fun hx => h (by injection hx))
  | Except.error _, Except.ok _ => isFalse (fun hx => Except.noConfusion hx)
  | Except.ok _, Except.error _ => isFalse (fun hx => Except.noConfusion hx)
  | Except.ok a, Except.ok b =>
    if h : a = b then isTrue (congrArg Except.ok h)
    else isFalse (fun hx => h (by injection hx))

/-- `action_menu_level_create`: allocates a zeroed level with
`display_mode = Wide`, `num_items = 0`, `max_items = num_items`
(a `uint16_t` parameter, hence mod 65536), `level = 1`, `parent = NULL`
and a zeroed items array.  Either allocation failing yields `NULL` and
leaves the arena unchanged (a failed items allocation frees the level).
On success the fresh level is appended and its index returned. -/
def action_menu_level_create (h : Heap) (num_items : Nat)
    (levelAllocOk itemsAllocOk : Bool) : Heap × Option Nat :=
  if levelAllocOk then
    if itemsAllocOk then
      (h ++ [{ max_items := num_items % 65536, num_items := 0, items := [],
               display_mode := ActionMenuLevelDisplayMode.wide, level := 1,
               parent := none }], some h.length)
    else (h, none)
  else (h, none)

/-- `action_menu_level_set_display_mode`: no-op on `NULL`, otherwise
overwrites the display mode.  (A dangling index is left unchanged; the
C contract assumes a valid pointer here.) -/
def action_menu_level_set_display_mode (h : Heap) (level : Option Nat)
    (display_mode : ActionMenuLevelDisplayMode) : Heap :=
  match level with
  | none => h
  | some l =>
    match h[l]? with
    | none => h
    | some L => h.set l { L with display_mode := display_mode }

/-- `action_menu_level_add_action`: fails (returns `NULL`, arena
unchanged) when level is `NULL`, the level is full, the item allocation
fails, or the label copy allocation fails (the item is freed again in
that case).  On success the new leaf item (child `NULL`) is appended at
slot `num_items` and the count incremented.  `num_items + 1` cannot
overflow `uint16_t` because it is guarded by `num_items < max_items`. -/
def action_menu_level_add_action (h : Heap) (level : Option Nat)
    (label : Option String) (cb : Option Nat) (action_data : Option Nat)
    (itemAllocOk labelAllocOk : Bool) :
    Except Unit (Heap × Option ActionMenuItem) :=
  match level with
  | none => Except.ok (h, none)
  | some l =>
    match h[l]? with
    | none => Except.error ()
    | some L =>
      if L.num_items < L.max_items then
        if itemAllocOk then
          match label with
          | some s =>
            if labelAllocOk then
              let item : ActionMenuItem :=
                { label := some s, action_data := action_data, cb := cb,
                  child := none }
              Except.ok (h.set l { L with items := L.items ++ [item],
                                          num_items := L.num_items + 1 },
                         some item)
            else Except.ok (h, none)
          | none =>
            let item : ActionMenuItem :=
              { label := none, action_data := action_data, cb := cb,
                child := none }
            Except.ok (h.set l { L with items := L.items ++ [item],
                                        num_items := L.num_items + 1 },
                       some item)
        else Except.ok (h, none)
      else Except.ok (h, none)

/-- Tail of `action_menu_level_add_child` after the label has been
handled: `child->level = level->level + 1` (uint16 truncation), then
the item is stored at slot `num_items` and the count incremented. -/
def addChildFinish (h1 : Heap) (l c : Nat) (item : ActionMenuItem) :
    Except Unit (Heap × Option ActionMenuItem) :=
  match h1[l]?, h1[c]? with
  | some L1, some C1 =>
    let h2 := h1.set c { C1 with level := (L1.level + 1) % 65536 }
    match h2[l]? with
    | some L2 =>
      Except.ok (h2.set l { L2 with items := L2.items ++ [item],
                                    num_items := L2.num_items + 1 },
                 some item)
    | none => Except.error ()
  | _, _ => Except.error ()

/-- `action_menu_level_add_child`: as in the C source, after the
capacity check and a successful item allocation the code first stores
`item->child = child` and writes `child->parent = level` (dereferencing
`child` without a `NULL` check — a fault when `child` is absent), and
only afterwards copies the label; a failed label allocation therefore
returns `NULL` with `child->parent` already mutated.  On success
`child->level = level->level + 1` is written and the item appended. -/
def action_menu_level_add_child (h : Heap) (level : Option Nat)
    (child : Option Nat) (label : Option String)
    (itemAllocOk labelAllocOk : Bool) :
    Except Unit (Heap × Option ActionMenuItem) :=
  match level with
  | none => Except.ok (h, none)
  | some l =>
    match h[l]? with
    | none => Except.error ()
    | some L =>
      if L.num_items < L.max_items then
        if itemAllocOk then
          match child with
          | none => Except.error ()
          | some c =>
            match h[c]? with
            | none => Except.error ()
            | some C =>
              let h1 := h.set c { C with parent := some l }
              match label with
              | some s =>
                if labelAllocOk then
                  addChildFinish h1 l c
                    { label := some s, action_data := none, cb := none,
                      child := some c }
                else Except.ok (h1, none)
              | none =>
                addChildFinish h1 l c
                  { label := none, action_data := none, cb := none,
                    child := some c }
        else Except.ok (h, none)
      else Except.ok (h, none)

/-- `action_menu_item_get_label`. -/
def action_menu_item_get_label (item : Option ActionMenuItem) : Option String :=
  match item with
  | none => none
  | some it => it.label

/-- `action_menu_item_get_action_data`. -/
def action_menu_item_get_action_data (item : Option ActionMenuItem) : Option Nat :=
  match item with
  | none => none
  | some it => it.action_data

/-- One step of the item loop of `action_menu_hierarchy_destroy`
over the populated item slots of level `r`, parameterised by the
recursive call `recur` on child levels.  The result is the sequence of
`each_cb` visitor invocations, each identified by
(owning level index, slot index); `none` means the recursion bottomed
out (insufficient fuel) or a dangling child pointer was dereferenced. -/
def destroyItemsGo (recur : Nat → Option (List (Nat × Nat))) (r : Nat) :
    List ActionMenuItem → Nat → Option (List (Nat × Nat))
  | [], _ => some []
  | it :: rest, i =>
    match (match it.child with | some c => recur c | none => some []) with
    | none => none
    | some sub =>
      match destroyItemsGo recur r rest (i + 1) with
      | none => none
      | some tail => some (sub ++ (r, i) :: tail)

/-- Recursive body of `action_menu_hierarchy_destroy` on a non-`NULL`
root: for each item slot `i < num_items`, free the label, recursively
destroy the child subtree (if any), then invoke the visitor on the
item and free it.  The fuel bounds the recursion depth; any
tree-shaped hierarchy is fully traversed with enough fuel. -/
def destroyLevel (h : Heap) : Nat → Nat → Option (List (Nat × Nat))
  | 0, _ => none
  | fuel + 1, r =>
    match h[r]? with
    | none => none
    | some L => destroyItemsGo (destroyLevel h fuel) r (L.items.take L.num_items) 0

/-- `action_menu_hierarchy_destroy`: `if(root)` guards the whole body,
so an absent root is a no-op (no visitor invocations).  The result is
the post-order sequence of visitor invocations. -/
def action_menu_hierarchy_destroy (h : Heap) (fuel : Nat) :
    Option Nat → Option (List (Nat × Nat))
  | none => some []
  | some r => destroyLevel h fuel r

/-- A builder call, carrying its pointer arguments (arena indices) and
the success/failure oracles of the `malloc` calls it performs. -/
inductive BuilderOp where
  | create (capacity : Nat) (levelAllocOk itemsAllocOk : Bool)
  | addAction (level : Option Nat) (label : Option String) (cb : Option Nat)
      (action_data : Option Nat) (itemAllocOk labelAllocOk : Bool)
  | addChild (level : Option Nat) (child : Option Nat) (label : Option String)
      (itemAllocOk labelAllocOk : Bool)
  | setDisplayMode (level : Option Nat) (mode : ActionMenuLevelDisplayMode)
deriving DecidableEq, Repr

/-- Effect of one builder call on the arena (a faulting call — which in
C would crash — leaves the arena unchanged here; claims about built
hierarchies only rely on non-faulting sequences). -/
def stepOp (h : Heap) : BuilderOp → Heap
  | BuilderOp.create cap lOk iOk => (action_menu_level_create h cap lOk iOk).1
  | BuilderOp.addAction lv lb cb ad iOk lOk =>
    match action_menu_level_add_action h lv lb cb ad iOk lOk with
    | Except.ok p => p.1
    | Except.error _ => h
  | BuilderOp.addChild lv ch lb iOk lOk =>
    match action_menu_level_add_child h lv ch lb iOk lOk with
    | Except.ok p => p.1
    | Except.error _ => h
  | BuilderOp.setDisplayMode lv mode =>
    action_menu_level_set_display_mode h lv mode

/-- Run a sequence of builder calls from a starting arena. -/
def runFrom (h : Heap) : List BuilderOp → Heap
  | [] => h
  | op :: rest => runFrom (stepOp h op) rest

/-- The arena produced by a builder call sequence from the empty arena. -/
def buildHeap (ops : List BuilderOp) : Heap := runFrom [] ops

/-- Whether some populated item slot of the arena links to level `c`. -/
def hasLink (h : Heap) (c : Nat) : Bool :=
  h.any fun L => L.items.any fun it => it.child == some c

/-- Whether level `c` currently owns an item that links to a child level. -/
def levelHasChildItems (h : Heap) (c : Nat) : Bool :=
  match h[c]? with
  | none => false
  | some C => C.items.any fun it => it.child.isSome

/-- Whether an `addChild` call with these arguments and oracles
succeeds (returns a fresh item) on arena `h`. -/
def addChildOk (h : Heap) (lv ch : Option Nat) (lb : Option String)
    (iOk lOk : Bool) : Bool :=
  match lv, ch with
  | some l, some c =>
    match h[l]?, h[c]? with
    | some L, some _ =>
      decide (L.num_items < L.max_items) && iOk &&
        (match lb with | some _ => lOk | none => true)
    | _, _ => false
  | _, _ => false

/-- Hierarchy-order condition for one builder call: a *successful*
`addChild` must link a level that is distinct from its new parent, has
no incoming link yet, and owns no child items yet.  Sequences
satisfying this build exactly the tree-shaped hierarchies ("top-down"
construction); orders violating it can produce cycles, shared subtrees
or stale depth values. -/
def tdOk (h : Heap) : BuilderOp → Bool
  | BuilderOp.addChild lv ch lb iOk lOk =>
    if addChildOk h lv ch lb iOk lOk then
      match lv, ch with
      | some l, some c =>
        decide (c ≠ l) && !hasLink h c && !levelHasChildItems h c
      | _, _ => false
    else true
  | _ => true

/-- A builder call sequence is top-down (hierarchy-respecting) from
arena `h` when every call satisfies `tdOk` on the arena it runs in. -/
def topDownFrom (h : Heap) : List BuilderOp → Bool
  | [] => true
  | op :: rest => tdOk h op && topDownFrom (stepOp h op) rest

/-- The item stored at slot `i` of level `l`, when both exist. -/
def itemAt (h : Heap) (l i : Nat) : Option ActionMenuItem :=
  match h[l]? with
  | none => none
  | some L => L.items[i]?

/-- Levels reachable from `r` by following populated child links. -/
inductive Reach (h : Heap) (r : Nat) : Nat → Prop
  | refl : Reach h r r
  | step {p c : Nat} {L : ActionMenuLevel} {it : ActionMenuItem} {i : Nat} :
      Reach h r p → h[p]? = some L →
      (L.items.take L.num_items)[i]? = some it → it.child = some c →
      Reach h r c

/-- Animation phase of the slide transition: the slide-out animation
carries the `animation_out_stopped` completion handler, the slide-in
animation carries none. -/
inductive AnimPhase where
  | slidingOut
  | slidingIn
deriving DecidableEq, Repr

/-- Model of `struct ActionMenu` (one open session) together with the
observable state of its external collaborators: `selected_row` is the
menu layer's selected row, `window_open`/`result_pushed` reflect the
host window stack, `anim` is the scheduled property animation (at most
one, mirroring the single `prop_animation` slot), `bg_x` is the frame
x-origin of `bg_layer` when at rest, and `reloads` counts
`menu_layer_reload_data` requests. -/
structure ActionMenu where
  current_level : Option Nat
  tmp_level : Option Nat
  performed_action : Option (Nat × Nat)
  frozen : Bool
  result_window : Option Nat
  config_root : Option Nat
  context : Option Nat
  selected_row : Nat
  window_open : Bool
  result_pushed : Bool
  anim : Option AnimPhase
  bg_x : Int
  reloads : Nat
deriving DecidableEq, Repr

/-- Model of `ActionMenuConfig` (the fields the core reads). -/
structure ActionMenuConfig where
  root_level : Option Nat
  context : Option Nat
deriving DecidableEq, Repr

/-- `animate_menu`: reads the current frame x-origin `fx` of
`bg_layer`; a frame at 0 slides out (target `-MENU_LAYER_OFFSET`, with
the `animation_out_stopped` handler attached since the target is
non-zero), otherwise it slides back in (target 0, no handler).  Any
previously scheduled animation is destroyed first, so the single
animation slot is overwritten. -/
def animate_menu (fx : Int) (m : ActionMenu) : ActionMenu :=
  if fx = 0 then { m with anim := some AnimPhase.slidingOut }
  else { m with anim := some AnimPhase.slidingIn }

/-- `animation_out_stopped`: commits the pending level
(`current_level = tmp_level`, which is whatever `tmp_level` holds —
`NULL` included), clears `tmp_level`, resets the selection to row 0,
requests a data reload, and immediately starts the symmetric slide-in
by calling `animate_menu` again (the frame now rests at the slide-out
target). -/
def animation_out_stopped (m : ActionMenu) : ActionMenu :=
  let m1 := { m with current_level := m.tmp_level, tmp_level := none,
                     selected_row := 0, reloads := m.reloads + 1 }
  animate_menu m1.bg_x m1

/-- Host-side completion of the scheduled animation: the frame reaches
its target; for a slide-out the attached `animation_out_stopped`
handler then runs, for a slide-in no handler was attached. -/
def animation_completed (m : ActionMenu) : ActionMenu :=
  match m.anim with
  | none => m
  | some AnimPhase.slidingIn => { m with anim := none, bg_x := 0 }
  | some AnimPhase.slidingOut =>
    animation_out_stopped { m with anim := none, bg_x := -14 }

/-- `select_click_handler`: suppressed while frozen; otherwise reads
the selected row of the current level.  An item with a child starts a
descend transition (`tmp_level` set, `animate_menu` scheduled at the
current frame position `fx`).  A leaf item with a callback is recorded
as `performed_action` and its callback invoked (modelled by the
environment-supplied state transformer `cbEff`); the `frozen` flag is
re-read *after* the callback returns, and only if still unfrozen the
window is removed and the result window, if any, pushed.  A `none`
result models a fault (absent/dangling current level, or a selected
row outside the populated slots).  The environment transformer `cbEff`
models the application-supplied `ActionMenuPerformActionCb`: it
receives the callback identifier, the session state at invocation
time, the performed item reference, and the config context, and
returns the session state after the callback returns (the callback may
have called `freeze`, `set_result_window`, `close`, ...). -/
def select_click_handler (h : Heap)
    (cbEff : Nat → ActionMenu → Nat × Nat → Option Nat → ActionMenu)
    (fx : Int) (m : ActionMenu) : Option ActionMenu :=
  if m.frozen then some m
  else
    match m.current_level with
    | none => none
    | some l =>
      match h[l]? with
      | none => none
      | some L =>
        match (L.items.take L.num_items)[m.selected_row]? with
        | none => none
        | some it =>
          match it.child with
          | some c => some (animate_menu fx { m with tmp_level := some c })
          | none =>
            match it.cb with
            | none => some m
            | some cbId =>
              let m1 := { m with performed_action := some (l, m.selected_row) }
              let m2 := cbEff cbId m1 (l, m.selected_row) m1.context
              if m2.frozen then some m2
              else
                let m3 := { m2 with window_open := false }
                some (if m3.result_window.isSome
                      then { m3 with result_pushed := true } else m3)

/-- `back_click_handler`: suppressed while frozen; with a parent level
it starts an ascend transition, at the root it removes the window. -/
def back_click_handler (h : Heap) (fx : Int) (m : ActionMenu) :
    Option ActionMenu :=
  if m.frozen then some m
  else
    match m.current_level with
    | none => none
    | some l =>
      match h[l]? with
      | none => none
      | some L =>
        match L.parent with
        | some p => some (animate_menu fx { m with tmp_level := some p })
        | none => some { m with window_open := false }

/-- `up_click_handler`: suppressed while frozen; otherwise moves the
selection up one row (the menu layer clamps at row 0). -/
def up_click_handler (m : ActionMenu) : Option ActionMenu :=
  if m.frozen then some m
  else some { m with selected_row := m.selected_row - 1 }

/-- `down_click_handler`: suppressed while frozen; otherwise moves the
selection down one row (the menu layer clamps at the last row of the
current level). -/
def down_click_handler (h : Heap) (m : ActionMenu) : Option ActionMenu :=
  if m.frozen then some m
  else
    match m.current_level with
    | none => none
    | some l =>
      match h[l]? with
      | none => none
      | some L => some { m with selected_row := min (m.selected_row + 1) (L.num_items - 1) }

/-- `action_menu_open`: `NULL` config yields `NULL`; otherwise the
session is allocated (oracle `allocOk`), the config copied, the
current level initialised to the config's root level and the window
pushed; `memset` zeroes `frozen`, `tmp_level`, `performed_action` and
`result_window`; the fresh menu layer selects row 0. -/
def action_menu_open (config : Option ActionMenuConfig) (allocOk : Bool) :
    Option ActionMenu :=
  match config with
  | none => none
  | some cfg =>
    if allocOk then
      some { current_level := cfg.root_level, tmp_level := none,
             performed_action := none, frozen := false, result_window := none,
             config_root := cfg.root_level, context := cfg.context,
             selected_row := 0, window_open := true, result_pushed := false,
             anim := none, bg_x := 0, reloads := 0 }
    else none

/-- `action_menu_get_context`: `NULL`-safe getter of the stored
config's context pointer. -/
def action_menu_get_context (action_menu : Option ActionMenu) : Option Nat :=
  match action_menu with
  | none => none
  | some m => m.context

/-- `action_menu_get_root_level`: `NULL`-safe; returns
`action_menu->current_level`, i.e. the level the session currently
displays, not the root stored in the config. -/
def action_menu_get_root_level (action_menu : Option ActionMenu) : Option Nat :=
  match action_menu with
  | none => none
  | some m => m.current_level

/-- `action_menu_freeze`: `NULL`-safe; sets the frozen flag. -/
def action_menu_freeze (action_menu : Option ActionMenu) : Option ActionMenu :=
  match action_menu with
  | none => none
  | some m => some { m with frozen := true }

/-- `action_menu_unfreeze`: `NULL`-safe; clears the frozen flag. -/
def action_menu_unfreeze (action_menu : Option ActionMenu) : Option ActionMenu :=
  match action_menu with
  | none => none
  | some m => some { m with frozen := false }

/-- `action_menu_set_result_window`: `NULL`-safe; overwrites the single
result-window slot (`none` clears it). -/
def action_menu_set_result_window (action_menu : Option ActionMenu)
    (result_window : Option Nat) : Option ActionMenu :=
  match action_menu with
  | none => none
  | some m => some { m with result_window := result_window }

/-- `action_menu_close`: assumes a valid session (no `NULL` check in
the source); removes the window regardless of `frozen` and pushes the
stored result window, if any. -/
def action_menu_close (m : ActionMenu) (_animated : Bool) : ActionMenu :=
  if m.result_window.isSome then
    { m with window_open := false, result_pushed := true }
  else { m with window_open := false }

/-- The property claimed by the depth-invariant claim, as a decidable
check on an arena: every populated item with a child satisfies
`child.level = owner.level + 1`. -/
def depthInvariantB (h : Heap) : Bool :=
  (List.range h.length).all fun l =>
    match h[l]? with
    | none => true
    | some L => L.items.all fun it =>
        match it.child with
        | none => true
        | some c =>
          match h[c]? with
          | none => false
          | some C => C.level == L.level + 1

/-- The child-unmutated-on-failure property claimed for `add_child`,
as a decidable check at one call site: whenever the call fails
(returns an absent item), the child level's record is unchanged. -/
def addChildFailureLeavesChildB (h : Heap) (lv : Option Nat) (c : Nat)
    (lb : Option String) (iOk lOk : Bool) : Bool :=
  match action_menu_level_add_child h lv (some c) lb iOk lOk with
  | Except.ok (h', none) => h'[c]? == h[c]?
  | _ => true

/-- Concrete builder sequence (the spec's test scenario): a root level
of capacity 2 holding leaf "A" and submenu "B", whose child level of
capacity 1 holds leaf "C". -/
def opsScenario : List BuilderOp :=
  [BuilderOp.create 2 true true,
   BuilderOp.create 1 true true,
   BuilderOp.addAction (some 0) (some "A") (some 10) none true true,
   BuilderOp.addAction (some 1) (some "C") (some 11) none true true,
   BuilderOp.addChild (some 0) (some 1) (some "B") true true]

/-- The arena built by `opsScenario`. -/
def heapScenario : Heap := buildHeap opsScenario

/-- Concrete builder sequence: a root of capacity 2 with two submenu
items linking the two child levels. -/
def opsTwoChildren : List BuilderOp :=
  [BuilderOp.create 2 true true,
   BuilderOp.create 1 true true,
   BuilderOp.create 1 true true,
   BuilderOp.addChild (some 0) (some 1) (some "B1") true true,
   BuilderOp.addChild (some 0) (some 2) (some "B2") true true]

/-- The arena built by `opsTwoChildren`. -/
def heapTwoChildren : Heap := buildHeap opsTwoChildren

/-- Bottom-up builder sequence: the grandchild is linked under the
middle level first, then the middle level is linked under the root, so
the grandchild keeps the depth computed from the middle level's old
depth. -/
def opsBottomUp : List BuilderOp :=
  [BuilderOp.create 1 true true,
   BuilderOp.create 1 true true,
   BuilderOp.create 1 true true,
   BuilderOp.addChild (some 1) (some 2) none true true,
   BuilderOp.addChild (some 0) (some 1) none true true]

/-- Two fresh unit-capacity levels (fixture for `add_child` failure
behaviour). -/
def heapTwoLevels : Heap :=
  buildHeap [BuilderOp.create 1 true true, BuilderOp.create 1 true true]

/-- Environment callback model that leaves the session unchanged. -/
def cbNoop : Nat → ActionMenu → Nat × Nat → Option Nat → ActionMenu :=
  fun _ m _ _ => m

/-- Environment callback model that calls `action_menu_freeze` on the
session from inside the action callback. -/
def cbFreeze : Nat → ActionMenu → Nat × Nat → Option Nat → ActionMenu :=
  fun _ m _ _ => { m with frozen := true }

/-- A freshly opened session over root level 0 (fixture). -/
def sessionIdle : ActionMenu :=
  { current_level := some 0, tmp_level := none, performed_action := none,
    frozen := false, result_window := none, config_root := some 0,
    context := none, selected_row := 0, window_open := true,
    result_pushed := false, anim := none, bg_x := 0, reloads := 0 }

/-- The same session frozen (fixture). -/
def sessionFrozen : ActionMenu := { sessionIdle with frozen := true }

/-- The same session with the selection on row 1 (fixture). -/
def sessionB : ActionMenu := { sessionIdle with selected_row := 1 }

/-- A session over `heapTwoChildren` mid slide-out towards level 1,
with the selection on row 1, the second submenu item (fixture). -/
def sessionMid : ActionMenu :=
  { sessionIdle with tmp_level := some 1, anim := some AnimPhase.slidingOut,
                     selected_row := 1 }

/-- Round-trip fixture: state after pressing Select on row 1 of
`sessionB` (descend into level 1 scheduled). -/
def rt1 : ActionMenu := animate_menu 0 { sessionB with tmp_level := some 1 }

/-- Round-trip fixture: state after both descend animations completed. -/
def rt3 : ActionMenu := animation_completed (animation_completed rt1)

/-- Round-trip fixture: state after pressing Back (ascend scheduled). -/
def rt4 : ActionMenu := animate_menu 0 { rt3 with tmp_level := some 0 }

/-- Round-trip fixture: state after both ascend animations completed. -/
def rt6 : ActionMenu := animation_completed (animation_completed rt4)

/-- Slot `i` of level `j` holds an item linking child level `c`. -/
def LinkAt (h : Heap) (j i c : Nat) : Prop :=
  ∃ (L : ActionMenuLevel) (it : ActionMenuItem),
    h[j]? = some L ∧ L.items[i]? = some it ∧ it.child = some c

/-- Structural invariant of arenas built by top-down builder call
sequences: counts match the stored item lists, child links point into
the arena, each level has at most one incoming link, links admit a
rank function that increases by one along links (hence the link graph
is a forest), and the stored depth of a linked level is its parent's
depth plus one (as a `uint16_t`). -/
structure BuildInv (h : Heap) : Prop where
  numLen : ∀ (j : Nat) (L : ActionMenuLevel), h[j]? = some L →
    L.num_items = L.items.length
  childValid : ∀ (j i c : Nat), LinkAt h j i c → c < h.length
  linkUnique : ∀ (j1 i1 j2 i2 c : Nat), LinkAt h j1 i1 c →
    LinkAt h j2 i2 c → j1 = j2 ∧ i1 = i2
  ranked : ∃ rank : Nat → Nat, ∀ (j i c : Nat), LinkAt h j i c →
    rank c = rank j + 1
  depthLink : ∀ (j i c : Nat), LinkAt h j i c →
    ∀ (L C : ActionMenuLevel), h[j]? = some L → h[c]? = some C →
    C.level = (L.level + 1) % 65536

/-- The parent-child links stored in level `j`, as explicit
`(owner, slot, child)` triples. -/
def levelLinks (h : Heap) (j : Nat) : List (Nat × Nat × Nat) :=
  match h[j]? with
  | none => []
  | some L => (List.range L.items.length).filterMap fun i =>
      match L.items[i]? with
      | none => none
      | some it =>
        match it.child with
        | none => none
        | some c => some (j, i, c)

/-- Every parent-child link of the arena: the executable enumeration
of the `LinkAt` relation. -/
def heapLinks (h : Heap) : List (Nat × Nat × Nat) :=
  (List.range h.length).foldr (fun j acc => levelLinks h j ++ acc) []

/-- An arena whose stored child links form a forest — each level is
the child of at most one item, and some rank function increases by one
along every link (so the link graph has no cycles): the shape that
makes a set of builder-produced levels a *hierarchy*.  The first two
fields (counts match the stored item lists, links point into the
arena) hold for every builder call sequence; the last two express
tree-shapedness and exclude exactly the call orders that alias a child
under two items or close a link cycle. -/
structure ForestInv (h : Heap) : Prop where
  numLen : ∀ (j : Nat) (L : ActionMenuLevel), h[j]? = some L →
    L.num_items = L.items.length
  childValid : ∀ (j i c : Nat), LinkAt h j i c → c < h.length
  linkUnique : ∀ (j1 i1 j2 i2 c : Nat), LinkAt h j1 i1 c →
    LinkAt h j2 i2 c → j1 = j2 ∧ i1 = i2
  ranked : ∃ rank : Nat → Nat, ∀ (j i c : Nat), LinkAt h j i c →
    rank c = rank j + 1

/-! ## Session / navigation state-machine claims -/

/-- Claim C5: while `frozen` is set, every Descend/Ascend/Select
input (and selection movement) is a complete no-op — the session state
(`current_level`, `performed_action`, the animation slot, the window)
is returned unchanged and no transition animation is scheduled;
`unfreeze` clears only the flag, after which the same input follows
the normal paths (a Select on a submenu item sets `tmp_level` and
schedules the slide, a Back with a parent likewise). -/
theorem C5_frozen_suppression (h : Heap)
    (cbEff : Nat → ActionMenu → Nat × Nat → Option Nat → ActionMenu)
    (fx : Int) (m : ActionMenu) (hf : m.frozen = true) :
    select_click_handler h cbEff fx m = some m ∧
    back_click_handler h fx m = some m ∧
    up_click_handler m = some m ∧
    down_click_handler h m = some m ∧
    action_menu_unfreeze (some m) = some { m with frozen := false } ∧
    (∀ l L it c, m.current_level = some l → h[l]? = some L →
      (L.items.take L.num_items)[m.selected_row]? = some it →
      it.child = some c →
      select_click_handler h cbEff fx { m with frozen := false } =
        some (animate_menu fx { m with frozen := false, tmp_level := some c })) ∧
    (∀ l L p, m.current_level = some l → h[l]? = some L → L.parent = some p →
      back_click_handler h fx { m with frozen := false } =
        some (animate_menu fx { m with frozen := false, tmp_level := some p })) := by
  refine ⟨?_, ?_, ?_, ?_, rfl, ?_, ?_⟩
  · simp [select_click_handler, hf]
  · simp [back_click_handler, hf]
  · simp [up_click_handler, hf]
  · simp [down_click_handler, hf]
  · intro l L it c hcur hL hit hc
    simp [select_click_handler, hcur, hL, hit, hc]
  · intro l L p hcur hL hp
    simp [back_click_handler, hcur, hL, hp]

/-- Claim C5 witness: on the concrete frozen session all four inputs
are no-ops. -/
theorem C5_witness :
    select_click_handler heapScenario cbNoop 0 sessionFrozen =
      some sessionFrozen :=
  (C5_frozen_suppression heapScenario cbNoop 0 sessionFrozen rfl).1

/-- Claim C6: on an unfrozen session whose selected item has no child
but has a callback, Select first records the item as
`performed_action` (the callback observes the already-updated
session), then invokes the callback with (session, item, config
context), and decides whether to close by re-reading `frozen` from the
session state *returned by the callback*: if the callback froze the
session it stays open (state is exactly the callback's result);
otherwise the window is removed and the stored result window, if any,
is pushed. -/
theorem C6_select_leaf_callback (h : Heap)
    (cbEff : Nat → ActionMenu → Nat × Nat → Option Nat → ActionMenu)
    (fx : Int) (m m2 : ActionMenu) (l : Nat) (L : ActionMenuLevel)
    (it : ActionMenuItem) (cbId : Nat)
    (hf : m.frozen = false) (hcur : m.current_level = some l)
    (hL : h[l]? = some L)
    (hit : (L.items.take L.num_items)[m.selected_row]? = some it)
    (hchild : it.child = none) (hcb : it.cb = some cbId)
    (hm2 : m2 = cbEff cbId { m with performed_action := some (l, m.selected_row) }
                  (l, m.selected_row) m.context) :
    select_click_handler h cbEff fx m =
      some (if m2.frozen then m2
            else if m2.result_window.isSome
              then { m2 with window_open := false, result_pushed := true }
              else { m2 with window_open := false }) := by
  simp only [hcur, hf] at hm2
  simp [select_click_handler, hf, hcur, hL, hit, hchild, hcb, ← hm2]
  by_cases hfr : m2.frozen = true
  · simp [hfr]
  · by_cases hrw : m2.result_window.isSome = true
    · simp [hfr, hrw]
    · simp [hfr, hrw]

/-- Claim C6 witness: on the concrete scenario, selecting leaf "A"
with a callback that freezes the session leaves the window open and
the session frozen with `performed_action` recorded. -/
theorem C6_witness :
    select_click_handler heapScenario cbFreeze 0 sessionIdle =
      some { sessionIdle with performed_action := some (0, 0), frozen := true } := by
  have h := C6_select_leaf_callback heapScenario cbFreeze 0 sessionIdle
      { sessionIdle with performed_action := some (0, 0), frozen := true }
      0 _ _ 10 rfl rfl rfl rfl rfl rfl rfl
  exact h.trans (by decide)

/-- Claim C7 (amended): a navigation request arriving while a
transition is in flight is *not* ignored — the handlers gate only on
`frozen`, so an unfrozen Select on a submenu item during a transition
is processed against the still-uncommitted `current_level`, overwrites
the pending `tmp_level` and replaces the scheduled animation (the
previous animation object is destroyed first, so at most one animation
object is ever scheduled, which is the only surviving part of the
original claim). -/
theorem C7_transition_not_guarded (h : Heap)
    (cbEff : Nat → ActionMenu → Nat × Nat → Option Nat → ActionMenu)
    (fx : Int) (m : ActionMenu) (l : Nat) (L : ActionMenuLevel)
    (it : ActionMenuItem) (c : Nat) (ph : AnimPhase)
    (hf : m.frozen = false) (hanim : m.anim = some ph)
    (hcur : m.current_level = some l) (hL : h[l]? = some L)
    (hit : (L.items.take L.num_items)[m.selected_row]? = some it)
    (hc : it.child = some c) :
    select_click_handler h cbEff fx m =
      some (animate_menu fx { m with tmp_level := some c }) ∧
    (animate_menu fx { m with tmp_level := some c }).anim =
      some (if fx = 0 then AnimPhase.slidingOut else AnimPhase.slidingIn) ∧
    (animate_menu fx { m with tmp_level := some c }).tmp_level = some c := by
  refine ⟨?_, ?_, ?_⟩
  · simp [select_click_handler, hf, hcur, hL, hit, hc]
  · by_cases hfx : fx = 0 <;> simp [animate_menu, hfx]
  · by_cases hfx : fx = 0 <;> simp [animate_menu, hfx]

/-- Claim C7 counterexample: on the concrete session `sessionMid`,
which is mid slide-out towards level 1, an unfrozen Select press (with
the bg frame at some intermediate position, here -7) is processed: the
pending target is overwritten from level 1 to level 2 and a new
animation scheduled, so the request is not a no-op as claimed. -/
theorem C7_counterexample :
    (select_click_handler heapTwoChildren cbNoop (-7) sessionMid).map
        ActionMenu.tmp_level = some (some 2) ∧
    sessionMid.tmp_level = some 1 ∧
    sessionMid.anim = some AnimPhase.slidingOut ∧
    select_click_handler heapTwoChildren cbNoop (-7) sessionMid ≠
      some sessionMid := by
  refine ⟨by decide, by decide, by decide, by decide⟩

/-- Claim C7 witness: the amended behaviour at the concrete
mid-transition state. -/
theorem C7_witness :
    select_click_handler heapTwoChildren cbNoop (-7) sessionMid =
      some (animate_menu (-7) { sessionMid with tmp_level := some 2 }) :=
  (C7_transition_not_guarded heapTwoChildren cbNoop (-7) sessionMid 0 _ _ 2
    AnimPhase.slidingOut rfl rfl rfl rfl rfl rfl).1

/-- Claim C8: completion of the slide-out phase atomically commits
`current_level := tmp_level`, clears the pending target, resets the
selection to row 0, requests a data reload and immediately schedules
the symmetric slide-in; consequently, from an idle unfrozen session, a
Descend into a child followed (after the two animation completions) by
an Ascend returns `current_level` to the original level index with the
selection at row 0 and no animation in flight. -/
theorem C8_out_commit_roundtrip (h : Heap)
    (cbEff : Nat → ActionMenu → Nat × Nat → Option Nat → ActionMenu)
    (m s1 s3 s4 s6 : ActionMenu) (l : Nat) (L : ActionMenuLevel)
    (it : ActionMenuItem) (c : Nat) (C : ActionMenuLevel)
    (hf : m.frozen = false) (hanim : m.anim = none) (hbg : m.bg_x = 0)
    (hcur : m.current_level = some l) (hL : h[l]? = some L)
    (hit : (L.items.take L.num_items)[m.selected_row]? = some it)
    (hc : it.child = some c) (hC : h[c]? = some C) (hpar : C.parent = some l)
    (hs1 : s1 = animate_menu 0 { m with tmp_level := some c })
    (hs3 : s3 = animation_completed (animation_completed s1))
    (hs4 : s4 = animate_menu 0 { s3 with tmp_level := some l })
    (hs6 : s6 = animation_completed (animation_completed s4)) :
    (∀ m', m'.anim = some AnimPhase.slidingOut →
      (animation_completed m').current_level = m'.tmp_level ∧
      (animation_completed m').tmp_level = none ∧
      (animation_completed m').selected_row = 0 ∧
      (animation_completed m').reloads = m'.reloads + 1 ∧
      (animation_completed m').anim = some AnimPhase.slidingIn) ∧
    select_click_handler h cbEff 0 m = some s1 ∧
    (s3.current_level = some c ∧ s3.selected_row = 0 ∧ s3.anim = none ∧
      s3.bg_x = 0) ∧
    back_click_handler h 0 s3 = some s4 ∧
    (s6.current_level = some l ∧ s6.selected_row = 0 ∧ s6.anim = none) := by
  have hout : ∀ m', m'.anim = some AnimPhase.slidingOut →
      (animation_completed m').current_level = m'.tmp_level ∧
      (animation_completed m').tmp_level = none ∧
      (animation_completed m').selected_row = 0 ∧
      (animation_completed m').reloads = m'.reloads + 1 ∧
      (animation_completed m').anim = some AnimPhase.slidingIn := by
    intro m' ha
    simp [animation_completed, ha, animation_out_stopped, animate_menu]
  have h1 : s1 = { m with tmp_level := some c, anim := some AnimPhase.slidingOut } := by
    simp [hs1, animate_menu]
  have h3 : s3 = { m with tmp_level := none, current_level := some c,
                          selected_row := 0, reloads := m.reloads + 1,
                          anim := none, bg_x := 0 } := by
    simp [hs3, h1, animation_completed, animation_out_stopped, animate_menu]
  have h4 : s4 = { m with current_level := some c, tmp_level := some l,
                          selected_row := 0, reloads := m.reloads + 1,
                          anim := some AnimPhase.slidingOut, bg_x := 0 } := by
    simp [hs4, h3, animate_menu]
  have h6 : s6 = { m with current_level := some l, tmp_level := none,
                          selected_row := 0, reloads := m.reloads + 2,
                          anim := none, bg_x := 0 } := by
    simp [hs6, h4, animation_completed, animation_out_stopped, animate_menu]
  refine ⟨hout, ?_, ?_, ?_, ?_⟩
  · rw [h1]
    simp [select_click_handler, hf, hcur, hL, hit, hc, animate_menu]
  · rw [h3]
    simp
  · rw [h3, h4]
    simp [back_click_handler, hf, hC, hpar, animate_menu]
  · rw [h6]
    simp

/-- Claim C8 witness: the concrete round trip on the scenario
hierarchy (descend from the root into level 1 via submenu "B", then
ascend) ends back at level 0 with the selection at row 0. -/
theorem C8_witness :
    rt6.current_level = some 0 ∧ rt6.selected_row = 0 ∧ rt6.anim = none :=
  (C8_out_commit_roundtrip heapScenario cbNoop sessionB rt1 rt3 rt4 rt6 0 _ _ 1 _
    rfl rfl rfl rfl rfl rfl rfl rfl rfl rfl rfl rfl rfl).2.2.2.2

/-- Claim C10: `action_menu_get_root_level` returns the session's
*current* level (`action_menu->current_level`), not the root level
stored in the config: after a descend transition commits it returns
the level descended into, which differs from the config root whenever
the pending target does; on an absent session it returns an absent
value. -/
theorem C10_get_root_level_current (m : ActionMenu)
    (hanim : m.anim = some AnimPhase.slidingOut) :
    action_menu_get_root_level none = none ∧
    (∀ m', action_menu_get_root_level (some m') = m'.current_level) ∧
    action_menu_get_root_level (some (animation_completed m)) = m.tmp_level ∧
    (m.tmp_level ≠ m.config_root →
      action_menu_get_root_level (some (animation_completed m)) ≠ m.config_root) := by
  have hcommit : action_menu_get_root_level (some (animation_completed m)) =
      m.tmp_level := by
    simp [action_menu_get_root_level, animation_completed, hanim,
          animation_out_stopped, animate_menu]
  exact ⟨rfl, fun m' => rfl, hcommit, fun hne => hcommit ▸ hne⟩

/-- Claim C10 witness: on the concrete mid-descend session the getter
returns the committed child level 1, not the config root 0. -/
theorem C10_witness :
    action_menu_get_root_level (some (animation_completed sessionMid)) =
      sessionMid.tmp_level :=
  (C10_get_root_level_current sessionMid rfl).2.2.1

/-! ## Arena lookup/update lemmas -/

theorem arena_get_lt {α : Type} : ∀ (xs : List α) (i : Nat) (a : α),
    xs[i]? = some a → i < xs.length
  | [], _, _, hx => by simp at hx
  | _ :: _, 0, _, _ => Nat.succ_pos _
  | _ :: xs, n + 1, a, hx =>
    Nat.succ_lt_succ (arena_get_lt xs n a (by simpa using hx))

theorem arena_get_set_self {α : Type} : ∀ (xs : List α) (i : Nat) (a : α),
    i < xs.length → (xs.set i a)[i]? = some a
  | [], _, _, h => absurd h (by simp)
  | _ :: _, 0, _, _ => by simp [List.set]
  | _ :: xs, n + 1, a, h => by
    simpa using arena_get_set_self xs n a (Nat.lt_of_succ_lt_succ h)

theorem arena_get_set_ne {α : Type} : ∀ (xs : List α) (i j : Nat) (a : α),
    i ≠ j → (xs.set i a)[j]? = xs[j]?
  | [], _, _, _, _ => by simp
  | _ :: _, 0, 0, _, hne => absurd rfl hne
  | _ :: _, 0, _ + 1, _, _ => by simp [List.set]
  | _ :: _, _ + 1, 0, _, _ => by simp [List.set]
  | _ :: xs, i + 1, j + 1, a, hne => by
    simpa [List.set] using arena_get_set_ne xs i j a (fun hij => hne (by simp [hij]))

theorem arena_set_set {α : Type} : ∀ (xs : List α) (i : Nat) (a b : α),
    (xs.set i a).set i b = xs.set i b
  | [], _, _, _ => rfl
  | _ :: _, 0, _, _ => rfl
  | x :: xs, i + 1, a, b => by simp [List.set, arena_set_set xs i a b]

theorem arena_get_append_lt {α : Type} : ∀ (xs ys : List α) (i : Nat),
    i < xs.length → (xs ++ ys)[i]? = xs[i]?
  | [], _, _, h => absurd h (by simp)
  | _ :: _, _, 0, _ => by simp
  | _ :: xs, ys, i + 1, h => by
    simpa using arena_get_append_lt xs ys i (Nat.lt_of_succ_lt_succ h)

theorem arena_get_append_self {α : Type} : ∀ (xs : List α) (a : α),
    (xs ++ [a])[xs.length]? = some a
  | [], _ => rfl
  | _ :: xs, a => by simpa using arena_get_append_self xs a

/-! ## Characterisation of the builder calls -/

theorem addChildFinish_ne (h' : Heap) (l c : Nat) (L C' : ActionMenuLevel)
    (item : ActionMenuItem) (hne : c ≠ l)
    (hl : h'[l]? = some L) (hc : h'[c]? = some C') :
    addChildFinish h' l c item =
      Except.ok ((h'.set c { C' with level := (L.level + 1) % 65536 }).set l
        { L with items := L.items ++ [item], num_items := L.num_items + 1 },
        some item) := by
  have h2l : (h'.set c { C' with level := (L.level + 1) % 65536 })[l]? = some L := by
    rw [arena_get_set_ne h' c l _ hne]; exact hl
  simp only [addChildFinish, hl, hc, h2l]

theorem addChildFinish_self (h' : Heap) (l : Nat) (L : ActionMenuLevel)
    (item : ActionMenuItem) (hl : h'[l]? = some L) :
    addChildFinish h' l l item =
      Except.ok ((h'.set l { L with level := (L.level + 1) % 65536 }).set l
        { L with level := (L.level + 1) % 65536, items := L.items ++ [item],
                 num_items := L.num_items + 1 }, some item) := by
  have h2l : (h'.set l { L with level := (L.level + 1) % 65536 })[l]? =
      some { L with level := (L.level + 1) % 65536 } :=
    arena_get_set_self h' l _ (arena_get_lt h' l L hl)
  simp only [addChildFinish, hl, h2l]

theorem add_child_none_level (h : Heap) (ch : Option Nat) (lb : Option String)
    (iOk lOk : Bool) :
    action_menu_level_add_child h none ch lb iOk lOk = Except.ok (h, none) := rfl

theorem add_child_at_capacity (h : Heap) (l : Nat) (L : ActionMenuLevel)
    (ch : Option Nat) (lb : Option String) (iOk lOk : Bool)
    (hl : h[l]? = some L) (hcap : ¬ L.num_items < L.max_items) :
    action_menu_level_add_child h (some l) ch lb iOk lOk = Except.ok (h, none) := by
  simp [action_menu_level_add_child, hl, hcap]

theorem add_child_itemfail (h : Heap) (l : Nat) (L : ActionMenuLevel)
    (ch : Option Nat) (lb : Option String) (lOk : Bool)
    (hl : h[l]? = some L) (hcap : L.num_items < L.max_items) :
    action_menu_level_add_child h (some l) ch lb false lOk = Except.ok (h, none) := by
  simp [action_menu_level_add_child, hl, hcap]

theorem add_child_labelfail (h : Heap) (l c : Nat) (L C : ActionMenuLevel)
    (s : String) (hl : h[l]? = some L) (hc : h[c]? = some C)
    (hcap : L.num_items < L.max_items) :
    action_menu_level_add_child h (some l) (some c) (some s) true false =
      Except.ok (h.set c { C with parent := some l }, none) := by
  simp [action_menu_level_add_child, hl, hc, hcap]

theorem add_child_nullchild (h : Heap) (l : Nat) (L : ActionMenuLevel)
    (lb : Option String) (lOk : Bool)
    (hl : h[l]? = some L) (hcap : L.num_items < L.max_items) :
    action_menu_level_add_child h (some l) none lb true lOk = Except.error () := by
  simp [action_menu_level_add_child, hl, hcap]

theorem add_child_success_ne (h : Heap) (l c : Nat) (L C : ActionMenuLevel)
    (lb : Option String) (lOk : Bool) (hne : c ≠ l)
    (hl : h[l]? = some L) (hc : h[c]? = some C)
    (hcap : L.num_items < L.max_items)
    (hguard : (match lb with | some _ => lOk | none => true) = true) :
    action_menu_level_add_child h (some l) (some c) lb true lOk =
      Except.ok
        ((h.set c
            { C with parent := some l, level := (L.level + 1) % 65536 }).set l
          { L with
              items := L.items ++
                [{ label := lb, action_data := none, cb := none,
                   child := some c }],
              num_items := L.num_items + 1 },
          some { label := lb, action_data := none, cb := none,
                 child := some c }) := by
  have h1l : (h.set c { C with parent := some l })[l]? = some L := by
    rw [arena_get_set_ne h c l _ hne]; exact hl
  have h1c : (h.set c { C with parent := some l })[c]? =
      some { C with parent := some l } :=
    arena_get_set_self h c _ (arena_get_lt h c C hc)
  have hfin := addChildFinish_ne (h.set c { C with parent := some l }) l c L
      { C with parent := some l }
      { label := lb, action_data := none, cb := none, child := some c } hne h1l h1c
  rw [arena_set_set] at hfin
  cases lb with
  | none =>
    simp only [action_menu_level_add_child, hl, hc, hcap, if_true]
    exact hfin
  | some s =>
    cases lOk with
    | true =>
      simp only [action_menu_level_add_child, hl, hc, hcap, if_true]
      exact hfin
    | false => simp at hguard

theorem add_child_success_self (h : Heap) (l : Nat) (L : ActionMenuLevel)
    (lb : Option String) (lOk : Bool) (hl : h[l]? = some L)
    (hcap : L.num_items < L.max_items)
    (hguard : (match lb with | some _ => lOk | none => true) = true) :
    action_menu_level_add_child h (some l) (some l) lb true lOk =
      Except.ok
        (h.set l
          { L with
              parent := some l, level := (L.level + 1) % 65536,
              items := L.items ++
                [{ label := lb, action_data := none, cb := none,
                   child := some l }],
              num_items := L.num_items + 1 },
          some { label := lb, action_data := none, cb := none,
                 child := some l }) := by
  have h1l : (h.set l { L with parent := some l })[l]? =
      some { L with parent := some l } :=
    arena_get_set_self h l _ (arena_get_lt h l L hl)
  have hfin := addChildFinish_self (h.set l { L with parent := some l }) l
      { L with parent := some l }
      { label := lb, action_data := none, cb := none, child := some l } h1l
  rw [arena_set_set, arena_set_set] at hfin
  cases lb with
  | none => simp only [action_menu_level_add_child, hl, hcap, if_true]; exact hfin
  | some s =>
    cases lOk with
    | true => simp only [action_menu_level_add_child, hl, hcap, if_true]; exact hfin
    | false => simp at hguard

theorem add_action_none_level (h : Heap) (lb : Option String) (cb ad : Option Nat)
    (iOk lOk : Bool) :
    action_menu_level_add_action h none lb cb ad iOk lOk = Except.ok (h, none) := rfl

theorem add_action_at_capacity (h : Heap) (l : Nat) (L : ActionMenuLevel)
    (lb : Option String) (cb ad : Option Nat) (iOk lOk : Bool)
    (hl : h[l]? = some L) (hcap : ¬ L.num_items < L.max_items) :
    action_menu_level_add_action h (some l) lb cb ad iOk lOk =
      Except.ok (h, none) := by
  simp [action_menu_level_add_action, hl, hcap]

theorem add_action_itemfail (h : Heap) (l : Nat) (L : ActionMenuLevel)
    (lb : Option String) (cb ad : Option Nat) (lOk : Bool)
    (hl : h[l]? = some L) (hcap : L.num_items < L.max_items) :
    action_menu_level_add_action h (some l) lb cb ad false lOk =
      Except.ok (h, none) := by
  simp [action_menu_level_add_action, hl, hcap]

theorem add_action_labelfail (h : Heap) (l : Nat) (L : ActionMenuLevel)
    (s : String) (cb ad : Option Nat)
    (hl : h[l]? = some L) (hcap : L.num_items < L.max_items) :
    action_menu_level_add_action h (some l) (some s) cb ad true false =
      Except.ok (h, none) := by
  simp [action_menu_level_add_action, hl, hcap]

theorem add_action_success (h : Heap) (l : Nat) (L : ActionMenuLevel)
    (lb : Option String) (cb ad : Option Nat) (lOk : Bool)
    (hl : h[l]? = some L) (hcap : L.num_items < L.max_items)
    (hguard : (match lb with | some _ => lOk | none => true) = true) :
    action_menu_level_add_action h (some l) lb cb ad true lOk =
      Except.ok
        (h.set l
          { L with
              items := L.items ++
                [{ label := lb, action_data := ad, cb := cb, child := none }],
              num_items := L.num_items + 1 },
          some { label := lb, action_data := ad, cb := cb, child := none }) := by
  cases lb with
  | none => simp [action_menu_level_add_action, hl, hcap]
  | some s =>
    cases lOk with
    | true => simp [action_menu_level_add_action, hl, hcap]
    | false => simp at hguard

theorem arena_get_set_elim {α : Type} : ∀ (xs : List α) (i j : Nat) (a b : α),
    (xs.set i a)[j]? = some b → b = a ∨ xs[j]? = some b
  | [], _, _, _, _, h => by simp at h
  | _ :: _, 0, 0, _, _, h => Or.inl (by simpa [List.set] using h.symm)
  | _ :: _, 0, _ + 1, _, _, h => Or.inr (by simpa [List.set] using h)
  | _ :: _, _ + 1, 0, _, _, h => Or.inr (by simpa [List.set] using h)
  | x :: xs, i + 1, j + 1, a, b, h => by
    rcases arena_get_set_elim xs i j a b (by simpa [List.set] using h) with h' | h'
    · exact Or.inl h'
    · exact Or.inr (by simpa using h')

theorem arena_get_append_elim {α : Type} : ∀ (xs : List α) (a b : α) (j : Nat),
    (xs ++ [a])[j]? = some b → xs[j]? = some b ∨ b = a
  | [], _, _, 0, h => Or.inr (by simpa using h.symm)
  | [], _, _, _ + 1, h => by simp at h
  | _ :: _, _, _, 0, h => Or.inl (by simpa using h)
  | x :: xs, a, b, j + 1, h => by
    rcases arena_get_append_elim xs a b j (by simpa using h) with h' | h'
    · exact Or.inl (by simpa using h')
    · exact Or.inr h'

/-! ## Builder claims C2 and C9 -/

/-- Claim C2 (amended): a failed `add_child` leaves the child level
unmutated when it fails because the level is absent, the capacity is
exhausted, or the item allocation fails; but when the *label*
allocation fails, `child.parent = level` has already been written
before the failure return, so that one mutation survives a failed
call (this is the exception the counterexample forces).
`child.level = level.level + 1` is written only as part of a
successful call, which also sets `child.parent`. -/
theorem C2_add_child_failure_mutation (h : Heap) (ch : Option Nat)
    (lb : Option String) (iOk lOk : Bool) :
    (action_menu_level_add_child h none ch lb iOk lOk = Except.ok (h, none)) ∧
    (∀ l L, h[l]? = some L → ¬ L.num_items < L.max_items →
      action_menu_level_add_child h (some l) ch lb iOk lOk =
        Except.ok (h, none)) ∧
    (∀ l L, h[l]? = some L → L.num_items < L.max_items →
      action_menu_level_add_child h (some l) ch lb false lOk =
        Except.ok (h, none)) ∧
    (∀ l c L C s, h[l]? = some L → h[c]? = some C →
      L.num_items < L.max_items →
      action_menu_level_add_child h (some l) (some c) (some s) true false =
        Except.ok (h.set c { C with parent := some l }, none)) ∧
    (∀ l c L C, c ≠ l → h[l]? = some L → h[c]? = some C →
      L.num_items < L.max_items →
      (match lb with | some _ => lOk | none => true) = true →
      ∃ h' it, action_menu_level_add_child h (some l) (some c) lb true lOk =
          Except.ok (h', some it) ∧
        h'[c]? = some
          { C with parent := some l, level := (L.level + 1) % 65536 }) := by
  refine ⟨add_child_none_level h ch lb iOk lOk, ?_, ?_, ?_, ?_⟩
  · intro l L hl hcap
    exact add_child_at_capacity h l L ch lb iOk lOk hl hcap
  · intro l L hl hcap
    exact add_child_itemfail h l L ch lb lOk hl hcap
  · intro l c L C s hl hc hcap
    exact add_child_labelfail h l c L C s hl hc hcap
  · intro l c L C hne hl hc hcap hguard
    refine ⟨_, _, add_child_success_ne h l c L C lb lOk hne hl hc hcap hguard, ?_⟩
    rw [arena_get_set_ne _ l c _ (fun hx => hne hx.symm),
        arena_get_set_self h c _ (arena_get_lt h c C hc)]

/-- Claim C2 counterexample: on two fresh unit-capacity levels, the
`add_child` call whose label allocation fails returns an absent item
(a failed call) yet has already overwritten the child's parent
pointer, so a failed call does mutate `child`. -/
theorem C2_counterexample :
    addChildFailureLeavesChildB heapTwoLevels (some 0) 1 (some "x") true false =
      false ∧
    action_menu_level_add_child heapTwoLevels (some 0) (some 1) (some "x")
        true false =
      Except.ok (heapTwoLevels.set 1
        { max_items := 1, num_items := 0, items := [],
          display_mode := ActionMenuLevelDisplayMode.wide, level := 1,
          parent := some 0 }, none) :=
  ⟨by decide, by decide⟩

/-- Claim C2 witness: the absent-level, capacity and item-allocation
failure paths leave the arena untouched on the concrete two-level
arena. -/
theorem C2_witness :
    action_menu_level_add_child heapTwoLevels (some 0) (some 1) (some "x")
        false true = Except.ok (heapTwoLevels, none) :=
  (C2_add_child_failure_mutation heapTwoLevels (some 1) (some "x") false
      true).2.2.1 0 _ rfl (by decide)

/-- Claim C9 (amended): every listed builder/session operation given
an absent target is a safe no-op (getters return an absent value) —
except `add_child`'s *child* argument: with a valid level that has
spare capacity and a successful item allocation, an absent child is
dereferenced by `child->parent = level` and the call faults instead of
being a no-op. -/
theorem C9_null_safety (h : Heap) (ch : Option Nat) (lb : Option String)
    (cb ad : Option Nat) (iOk lOk : Bool)
    (mode : ActionMenuLevelDisplayMode) (resw : Option Nat) (b : Bool) :
    action_menu_level_add_action h none lb cb ad iOk lOk =
      Except.ok (h, none) ∧
    action_menu_level_add_child h none ch lb iOk lOk = Except.ok (h, none) ∧
    action_menu_level_set_display_mode h none mode = h ∧
    action_menu_freeze none = none ∧
    action_menu_unfreeze none = none ∧
    action_menu_set_result_window none resw = none ∧
    action_menu_get_context none = none ∧
    action_menu_get_root_level none = none ∧
    action_menu_item_get_label none = none ∧
    action_menu_item_get_action_data none = none ∧
    action_menu_open none b = none ∧
    (∀ l L, h[l]? = some L → L.num_items < L.max_items →
      action_menu_level_add_child h (some l) none lb true lOk =
        Except.error ()) := by
  refine ⟨rfl, rfl, rfl, rfl, rfl, rfl, rfl, rfl, rfl, rfl, rfl, ?_⟩
  intro l L hl hcap
  exact add_child_nullchild h l L lb lOk hl hcap

/-- Claim C9 counterexample: `add_child` on a valid, non-full level
with an absent child faults (dereferences the absent child) rather
than being a safe no-op. -/
theorem C9_counterexample :
    action_menu_level_add_child heapTwoLevels (some 0) none (some "x")
        true true = Except.error () ∧
    action_menu_level_add_child heapTwoLevels (some 0) none (some "x")
        true true ≠ Except.ok (heapTwoLevels, none) :=
  ⟨by decide, by decide⟩

/-- Claim C9 witness: the amended fault characterisation at the
concrete arena. -/
theorem C9_witness :
    action_menu_level_add_child heapTwoLevels (some 0) none (some "x")
        true false = Except.error () :=
  (C9_null_safety heapTwoLevels (some 1) (some "x") none none true false
      ActionMenuLevelDisplayMode.wide none true).2.2.2.2.2.2.2.2.2.2.2
    0 _ rfl (by decide)

/-! ## Claim C3: capacity invariant -/

theorem cap_invariant_step (h : Heap)
    (hinv : ∀ (j : Nat) (L : ActionMenuLevel), h[j]? = some L →
      L.num_items ≤ L.max_items) (op : BuilderOp) :
    ∀ (j : Nat) (L : ActionMenuLevel), (stepOp h op)[j]? = some L →
      L.num_items ≤ L.max_items := by
  cases op with
  | create cap lOk iOk =>
    cases lOk with
    | false => simpa [stepOp, action_menu_level_create] using hinv
    | true =>
      cases iOk with
      | false => simpa [stepOp, action_menu_level_create] using hinv
      | true =>
        simp only [stepOp, action_menu_level_create, if_true]
        intro j L hj
        rcases arena_get_append_elim h _ L j hj with h' | h'
        · exact hinv j L h'
        · subst h'; exact Nat.zero_le _
  | setDisplayMode lv mode =>
    cases lv with
    | none => simpa [stepOp, action_menu_level_set_display_mode] using hinv
    | some l =>
      cases hl : h[l]? with
      | none =>
        simpa [stepOp, action_menu_level_set_display_mode, hl] using hinv
      | some L =>
        simp only [stepOp, action_menu_level_set_display_mode, hl]
        intro j L' hj
        rcases arena_get_set_elim h l j _ L' hj with h' | h'
        · subst h'; exact hinv l L hl
        · exact hinv j L' h'
  | addAction lv lb cb ad iOk lOk =>
    cases lv with
    | none => simpa [stepOp, add_action_none_level] using hinv
    | some l =>
      cases hl : h[l]? with
      | none => simpa [stepOp, action_menu_level_add_action, hl] using hinv
      | some L =>
        by_cases hcap : L.num_items < L.max_items
        · cases iOk with
          | false =>
            simpa [stepOp, add_action_itemfail h l L lb cb ad lOk hl hcap]
              using hinv
          | true =>
            have hsucc : ∀ (lb' : Option String) (lOk' : Bool),
                (match lb' with | some _ => lOk' | none => true) = true →
                ∀ (j : Nat) (L' : ActionMenuLevel),
                  (stepOp h (BuilderOp.addAction (some l) lb' cb ad true
                    lOk'))[j]? = some L' → L'.num_items ≤ L'.max_items := by
              intro lb' lOk' hguard j L' hj
              rw [stepOp, add_action_success h l L lb' cb ad lOk' hl hcap hguard]
                at hj
              rcases arena_get_set_elim h l j _ L' hj with h' | h'
              · subst h'; exact hcap
              · exact hinv j L' h'
            cases lb with
            | none => exact hsucc none lOk rfl
            | some s =>
              cases lOk with
              | false =>
                simpa [stepOp, add_action_labelfail h l L s cb ad hl hcap]
                  using hinv
              | true => exact hsucc (some s) true rfl
        · simpa [stepOp, add_action_at_capacity h l L lb cb ad iOk lOk hl hcap]
            using hinv
  | addChild lv ch lb iOk lOk =>
    cases lv with
    | none => simpa [stepOp, add_child_none_level] using hinv
    | some l =>
      cases hl : h[l]? with
      | none => simpa [stepOp, action_menu_level_add_child, hl] using hinv
      | some L =>
        by_cases hcap : L.num_items < L.max_items
        · cases iOk with
          | false =>
            simpa [stepOp, add_child_itemfail h l L ch lb lOk hl hcap] using hinv
          | true =>
            cases ch with
            | none =>
              simpa [stepOp, add_child_nullchild h l L lb lOk hl hcap] using hinv
            | some c =>
              cases hc : h[c]? with
              | none =>
                simpa [stepOp, action_menu_level_add_child, hl, hc, hcap]
                  using hinv
              | some C =>
                have hsucc : ∀ (lb' : Option String) (lOk' : Bool),
                    (match lb' with | some _ => lOk' | none => true) = true →
                    ∀ (j : Nat) (L' : ActionMenuLevel),
                      (stepOp h (BuilderOp.addChild (some l) (some c) lb'
                        true lOk'))[j]? = some L' →
                      L'.num_items ≤ L'.max_items := by
                  intro lb' lOk' hguard j L' hj
                  by_cases hcl : c = l
                  · subst hcl
                    have hCL : C = L := by
                      rw [hl] at hc; exact (Option.some.inj hc).symm
                    subst hCL
                    rw [stepOp,
                        add_child_success_self h c C lb' lOk' hl hcap hguard]
                      at hj
                    rcases arena_get_set_elim h c j _ L' hj with h' | h'
                    · subst h'; exact hcap
                    · exact hinv j L' h'
                  · rw [stepOp,
                        add_child_success_ne h l c L C lb' lOk' hcl hl hc hcap
                          hguard] at hj
                    rcases arena_get_set_elim _ l j _ L' hj with h' | h'
                    · subst h'; exact hcap
                    · rcases arena_get_set_elim h c j _ L' h' with h'' | h''
                      · subst h''; exact hinv c C hc
                      · exact hinv j L' h''
                cases lb with
                | none => exact hsucc none lOk rfl
                | some s =>
                  cases lOk with
                  | false =>
                    have hlf := add_child_labelfail h l c L C s hl hc hcap
                    simp only [stepOp, hlf]
                    intro j L' hj
                    rcases arena_get_set_elim h c j _ L' hj with h' | h'
                    · subst h'; exact hinv c C hc
                    · exact hinv j L' h'
                  | true => exact hsucc (some s) true rfl
        · simpa [stepOp, add_child_at_capacity h l L ch lb iOk lOk hl hcap]
            using hinv

theorem cap_invariant_run : ∀ (ops : List BuilderOp) (h : Heap),
    (∀ (j : Nat) (L : ActionMenuLevel), h[j]? = some L →
      L.num_items ≤ L.max_items) →
    ∀ (j : Nat) (L : ActionMenuLevel), (runFrom h ops)[j]? = some L →
      L.num_items ≤ L.max_items
  | [], _, hinv => hinv
  | op :: rest, h, hinv =>
    cap_invariant_run rest (stepOp h op) (cap_invariant_step h hinv op)

/-- Claim C3: a level at capacity rejects both kinds of add with an
absent result and a completely unchanged arena (in particular `count`
stays `N` and items/mode/depth/parent are untouched); a fresh level
starts at `count = 0` and each successful add increments `count` by
exactly one, so after `N` successful adds the level is at capacity and
the `(N+1)`-th call fails; and over every builder call sequence
`count` never exceeds `capacity`. -/
theorem C3_capacity (h : Heap) (ch : Option Nat) (lb : Option String)
    (cb ad : Option Nat) (iOk lOk : Bool) :
    (∀ (l : Nat) (L : ActionMenuLevel), h[l]? = some L →
      L.num_items = L.max_items →
      action_menu_level_add_action h (some l) lb cb ad iOk lOk =
        Except.ok (h, none)) ∧
    (∀ (l : Nat) (L : ActionMenuLevel), h[l]? = some L →
      L.num_items = L.max_items →
      action_menu_level_add_child h (some l) ch lb iOk lOk =
        Except.ok (h, none)) ∧
    (∀ (cap : Nat) (lOk2 iOk2 : Bool) (h' : Heap) (r : Nat),
      action_menu_level_create h cap lOk2 iOk2 = (h', some r) →
      (h'[r]?).map ActionMenuLevel.num_items = some 0) ∧
    (∀ (l : Nat) (h' : Heap) (it : ActionMenuItem),
      action_menu_level_add_action h (some l) lb cb ad iOk lOk =
        Except.ok (h', some it) →
      (h'[l]?).map ActionMenuLevel.num_items =
        (h[l]?).map (fun L => L.num_items + 1)) ∧
    (∀ (l c : Nat) (h' : Heap) (it : ActionMenuItem),
      action_menu_level_add_child h (some l) (some c) lb iOk lOk =
        Except.ok (h', some it) →
      (h'[l]?).map ActionMenuLevel.num_items =
        (h[l]?).map (fun L => L.num_items + 1)) ∧
    (∀ (ops : List BuilderOp) (j : Nat) (L : ActionMenuLevel),
      (buildHeap ops)[j]? = some L → L.num_items ≤ L.max_items) := by
  refine ⟨?_, ?_, ?_, ?_, ?_, ?_⟩
  · intro l L hl hfull
    exact add_action_at_capacity h l L lb cb ad iOk lOk hl (by omega)
  · intro l L hl hfull
    exact add_child_at_capacity h l L ch lb iOk lOk hl (by omega)
  · intro cap lOk2 iOk2 h' r heq
    cases lOk2 with
    | false => simp [action_menu_level_create] at heq
    | true =>
      cases iOk2 with
      | false => simp [action_menu_level_create] at heq
      | true =>
        simp only [action_menu_level_create, if_true, Prod.mk.injEq] at heq
        obtain ⟨hh, hr⟩ := heq
        subst hh
        cases hr
        rw [arena_get_append_self]
        rfl
  · intro l h' it heq
    cases hl : h[l]? with
    | none => simp [action_menu_level_add_action, hl] at heq
    | some L =>
      by_cases hcap : L.num_items < L.max_items
      · cases iOk with
        | false =>
          rw [add_action_itemfail h l L lb cb ad lOk hl hcap] at heq
          simp at heq
        | true =>
          have hsucc : ∀ (lb' : Option String) (lOk' : Bool),
              (match lb' with | some _ => lOk' | none => true) = true →
              action_menu_level_add_action h (some l) lb' cb ad true lOk' =
                Except.ok (h', some it) →
              (h'[l]?).map ActionMenuLevel.num_items =
                some (L.num_items + 1) := by
            intro lb' lOk' hguard heq'
            rw [add_action_success h l L lb' cb ad lOk' hl hcap hguard] at heq'
            simp only [Except.ok.injEq, Prod.mk.injEq] at heq'
            obtain ⟨hh, _⟩ := heq'
            subst hh
            rw [arena_get_set_self h l _ (arena_get_lt h l L hl)]
            rfl
          cases lb with
          | none => simpa using hsucc none lOk rfl heq
          | some s =>
            cases lOk with
            | false =>
              rw [add_action_labelfail h l L s cb ad hl hcap] at heq
              simp at heq
            | true => simpa using hsucc (some s) true rfl heq
      · rw [add_action_at_capacity h l L lb cb ad iOk lOk hl hcap] at heq
        simp at heq
  · intro l c h' it heq
    cases hl : h[l]? with
    | none => simp [action_menu_level_add_child, hl] at heq
    | some L =>
      by_cases hcap : L.num_items < L.max_items
      · cases iOk with
        | false =>
          rw [add_child_itemfail h l L (some c) lb lOk hl hcap] at heq
          simp at heq
        | true =>
          cases hc : h[c]? with
          | none => simp [action_menu_level_add_child, hl, hc, hcap] at heq
          | some C =>
            have hsucc : ∀ (lb' : Option String) (lOk' : Bool),
                (match lb' with | some _ => lOk' | none => true) = true →
                action_menu_level_add_child h (some l) (some c) lb' true lOk' =
                  Except.ok (h', some it) →
                (h'[l]?).map ActionMenuLevel.num_items =
                  some (L.num_items + 1) := by
              intro lb' lOk' hguard heq'
              by_cases hcl : c = l
              · subst hcl
                have hCL : C = L := by
                  rw [hl] at hc; exact (Option.some.inj hc).symm
                subst hCL
                rw [add_child_success_self h c C lb' lOk' hl hcap hguard] at heq'
                simp only [Except.ok.injEq, Prod.mk.injEq] at heq'
                obtain ⟨hh, _⟩ := heq'
                subst hh
                rw [arena_get_set_self h c _ (arena_get_lt h c C hl)]
                rfl
              · rw [add_child_success_ne h l c L C lb' lOk' hcl hl hc hcap
                    hguard] at heq'
                simp only [Except.ok.injEq, Prod.mk.injEq] at heq'
                obtain ⟨hh, _⟩ := heq'
                subst hh
                rw [arena_get_set_self _ l _
                  (by rw [List.length_set]; exact arena_get_lt h l L hl)]
                rfl
            cases lb with
            | none => simpa using hsucc none lOk rfl heq
            | some s =>
              cases lOk with
              | false =>
                rw [add_child_labelfail h l c L C s hl hc hcap] at heq
                simp at heq
              | true => simpa using hsucc (some s) true rfl heq
      · rw [add_child_at_capacity h l L (some c) lb iOk lOk hl hcap] at heq
        simp at heq
  · intro ops j L hj
    exact cap_invariant_run ops [] (by intro j' L' h'; simp at h') j L hj

/-- Claim C3 witness: on the concrete scenario arena, whose root level
(capacity 2) already holds 2 items, a further `add_action` fails with
the arena unchanged, and the capacity invariant holds for the
scenario's builder sequence. -/
theorem C3_witness :
    action_menu_level_add_action heapScenario (some 0) (some "D") (some 12)
        none true true = Except.ok (heapScenario, none) :=
  (C3_capacity heapScenario none (some "D") (some 12) none true true).1
    0 _ rfl (by decide)

/-! ## Link-related helper lemmas and the shape of a builder step -/

theorem hasLink_iff (h : Heap) (c : Nat) :
    hasLink h c = true ↔ ∃ (j : Nat) (L : ActionMenuLevel) (i : Nat)
      (it : ActionMenuItem), h[j]? = some L ∧ L.items[i]? = some it ∧
        it.child = some c := by
  constructor
  · intro hx
    rw [hasLink, List.any_eq_true] at hx
    obtain ⟨L, hLmem, hL⟩ := hx
    rw [List.any_eq_true] at hL
    obtain ⟨it, hitmem, hit⟩ := hL
    obtain ⟨j, hj⟩ := List.mem_iff_getElem?.1 hLmem
    obtain ⟨i, hi⟩ := List.mem_iff_getElem?.1 hitmem
    exact ⟨j, L, i, it, hj, hi, by simpa using hit⟩
  · rintro ⟨j, L, i, it, hj, hi, hc⟩
    rw [hasLink, List.any_eq_true]
    refine ⟨L, List.mem_iff_getElem?.2 ⟨j, hj⟩, ?_⟩
    rw [List.any_eq_true]
    exact ⟨it, List.mem_iff_getElem?.2 ⟨i, hi⟩, by simp [hc]⟩

theorem hasLink_false_spec (h : Heap) (c : Nat) (hfalse : hasLink h c = false) :
    ∀ (j : Nat) (L : ActionMenuLevel) (i : Nat) (it : ActionMenuItem),
      h[j]? = some L → L.items[i]? = some it → it.child ≠ some c := by
  intro j L i it hj hi hc
  have := (hasLink_iff h c).2 ⟨j, L, i, it, hj, hi, hc⟩
  rw [hfalse] at this
  cases this

theorem hasLink_false_of_subset (h h' : Heap) (c : Nat)
    (hmap : ∀ (j : Nat) (L : ActionMenuLevel) (i : Nat) (it : ActionMenuItem),
      h[j]? = some L → L.items[i]? = some it → it.child = some c →
      ∃ (j' : Nat) (L' : ActionMenuLevel) (i' : Nat) (it' : ActionMenuItem),
        h'[j']? = some L' ∧ L'.items[i']? = some it' ∧ it'.child = some c)
    (hfalse : hasLink h' c = false) : hasLink h c = false := by
  cases hx : hasLink h c with
  | false => rfl
  | true =>
    obtain ⟨j, L, i, it, hj, hi, hc2⟩ := (hasLink_iff h c).1 hx
    obtain ⟨j', L', i', it', hj', hi', hc'⟩ := hmap j L i it hj hi hc2
    have := (hasLink_iff h' c).2 ⟨j', L', i', it', hj', hi', hc'⟩
    rw [hfalse] at this
    cases this

theorem levelHasChildItems_false_spec (h : Heap) (c : Nat) (C : ActionMenuLevel)
    (hC : h[c]? = some C) (hfalse : levelHasChildItems h c = false) :
    ∀ (i : Nat) (it : ActionMenuItem), C.items[i]? = some it →
      it.child = none := by
  intro i it hi
  rw [levelHasChildItems, hC] at hfalse
  cases hchild : it.child with
  | none => rfl
  | some d =>
    have : C.items.any (fun it => it.child.isSome) = true := by
      rw [List.any_eq_true]
      exact ⟨it, List.mem_iff_getElem?.2 ⟨i, hi⟩, by simp [hchild]⟩
    simp [this] at hfalse

theorem arena_get_append_elim' {α : Type} : ∀ (xs : List α) (a b : α) (j : Nat),
    (xs ++ [a])[j]? = some b →
      (j < xs.length ∧ xs[j]? = some b) ∨ (j = xs.length ∧ b = a)
  | [], _, _, 0, h => Or.inr ⟨rfl, by simpa using h.symm⟩
  | [], _, _, _ + 1, h => by simp at h
  | _ :: _, _, _, 0, h => Or.inl ⟨Nat.succ_pos _, by simpa using h⟩
  | x :: xs, a, b, j + 1, h => by
    rcases arena_get_append_elim' xs a b j (by simpa using h) with ⟨hlt, hg⟩ | ⟨hj, hb⟩
    · exact Or.inl ⟨Nat.succ_lt_succ hlt, by simpa using hg⟩
    · exact Or.inr ⟨by simp [hj], hb⟩

/-- Every builder step has one of seven shapes: no-op, fresh level
appended, display mode overwritten, childless item appended
(`add_action` success), child's parent overwritten (`add_child` label
failure), self-link `add_child` success, or proper `add_child`
success.  The last two record the originating call so that top-down
conditions can be extracted. -/
theorem stepOp_shape (h : Heap) (op : BuilderOp) :
    stepOp h op = h ∨
    (∃ cap, stepOp h op = h ++
      [{ max_items := cap % 65536, num_items := 0, items := [],
         display_mode := ActionMenuLevelDisplayMode.wide, level := 1,
         parent := none }]) ∨
    (∃ (l : Nat) (L : ActionMenuLevel) (mode : ActionMenuLevelDisplayMode),
      h[l]? = some L ∧
      stepOp h op = h.set l { L with display_mode := mode }) ∨
    (∃ (l : Nat) (L : ActionMenuLevel) (it0 : ActionMenuItem),
      h[l]? = some L ∧ L.num_items < L.max_items ∧ it0.child = none ∧
      stepOp h op = h.set l
        { L with items := L.items ++ [it0],
                 num_items := L.num_items + 1 }) ∨
    (∃ (l c : Nat) (C : ActionMenuLevel),
      h[c]? = some C ∧
      stepOp h op = h.set c { C with parent := some l }) ∨
    (∃ (l : Nat) (L : ActionMenuLevel) (lb : Option String) (lOk : Bool),
      op = BuilderOp.addChild (some l) (some l) lb true lOk ∧
      (match lb with | some _ => lOk | none => true) = true ∧
      h[l]? = some L ∧ L.num_items < L.max_items ∧
      stepOp h op = h.set l
        { L with parent := some l, level := (L.level + 1) % 65536,
                 items := L.items ++
                   [{ label := lb, action_data := none, cb := none,
                      child := some l }],
                 num_items := L.num_items + 1 }) ∨
    (∃ (l c : Nat) (L C : ActionMenuLevel) (lb : Option String) (lOk : Bool),
      op = BuilderOp.addChild (some l) (some c) lb true lOk ∧
      (match lb with | some _ => lOk | none => true) = true ∧
      c ≠ l ∧ h[l]? = some L ∧ h[c]? = some C ∧
      L.num_items < L.max_items ∧
      stepOp h op = (h.set c
        { C with parent := some l, level := (L.level + 1) % 65536 }).set l
        { L with items := L.items ++
                   [{ label := lb, action_data := none, cb := none,
                      child := some c }],
                 num_items := L.num_items + 1 }) := by
  cases op with
  | create cap lOk iOk =>
    cases lOk with
    | false => exact Or.inl (by simp [stepOp, action_menu_level_create])
    | true =>
      cases iOk with
      | false => exact Or.inl (by simp [stepOp, action_menu_level_create])
      | true =>
        exact Or.inr (Or.inl ⟨cap, by simp [stepOp, action_menu_level_create]⟩)
  | setDisplayMode lv mode =>
    cases lv with
    | none => exact Or.inl rfl
    | some l =>
      cases hl : h[l]? with
      | none =>
        exact Or.inl (by simp [stepOp, action_menu_level_set_display_mode, hl])
      | some L =>
        refine Or.inr (Or.inr (Or.inl ⟨l, L, mode, hl, ?_⟩))
        simp [stepOp, action_menu_level_set_display_mode, hl]
  | addAction lv lb cb ad iOk lOk =>
    cases lv with
    | none => exact Or.inl rfl
    | some l =>
      cases hl : h[l]? with
      | none => exact Or.inl (by simp [stepOp, action_menu_level_add_action, hl])
      | some L =>
        by_cases hcap : L.num_items < L.max_items
        · cases iOk with
          | false =>
            exact Or.inl (by
              simp [stepOp, add_action_itemfail h l L lb cb ad lOk hl hcap])
          | true =>
            have hsucc : ∀ (lb' : Option String) (lOk' : Bool),
                (match lb' with | some _ => lOk' | none => true) = true →
                stepOp h (BuilderOp.addAction (some l) lb' cb ad true lOk') =
                  h.set l
                    { L with items := L.items ++
                               [{ label := lb', action_data := ad, cb := cb,
                                  child := none }],
                             num_items := L.num_items + 1 } := by
              intro lb' lOk' hguard
              simp [stepOp, add_action_success h l L lb' cb ad lOk' hl hcap hguard]
            cases lb with
            | none =>
              exact Or.inr (Or.inr (Or.inr (Or.inl
                ⟨l, L, _, hl, hcap, rfl, hsucc none lOk rfl⟩)))
            | some s =>
              cases lOk with
              | false =>
                exact Or.inl (by
                  simp [stepOp, add_action_labelfail h l L s cb ad hl hcap])
              | true =>
                exact Or.inr (Or.inr (Or.inr (Or.inl
                  ⟨l, L, _, hl, hcap, rfl, hsucc (some s) true rfl⟩)))
        · exact Or.inl (by
            simp [stepOp, add_action_at_capacity h l L lb cb ad iOk lOk hl hcap])
  | addChild lv ch lb iOk lOk =>
    cases lv with
    | none => exact Or.inl rfl
    | some l =>
      cases hl : h[l]? with
      | none => exact Or.inl (by simp [stepOp, action_menu_level_add_child, hl])
      | some L =>
        by_cases hcap : L.num_items < L.max_items
        · cases iOk with
          | false =>
            exact Or.inl (by
              simp [stepOp, add_child_itemfail h l L ch lb lOk hl hcap])
          | true =>
            cases ch with
            | none =>
              exact Or.inl (by
                simp [stepOp, add_child_nullchild h l L lb lOk hl hcap])
            | some c =>
              cases hc : h[c]? with
              | none =>
                exact Or.inl (by
                  simp [stepOp, action_menu_level_add_child, hl, hc, hcap])
              | some C =>
                by_cases hcl : c = l
                · subst hcl
                  have hCL : C = L := by
                    rw [hl] at hc; exact (Option.some.inj hc).symm
                  subst hCL
                  cases lb with
                  | none =>
                    refine Or.inr (Or.inr (Or.inr (Or.inr (Or.inr (Or.inl
                      ⟨c, C, none, lOk, rfl, rfl, hl, hcap, ?_⟩)))))
                    simp [stepOp, add_child_success_self h c C none lOk hl hcap rfl]
                  | some s =>
                    cases lOk with
                    | false =>
                      refine Or.inr (Or.inr (Or.inr (Or.inr (Or.inl
                        ⟨c, c, C, hc, ?_⟩))))
                      simp [stepOp, add_child_labelfail h c c C C s hl hc hcap]
                    | true =>
                      refine Or.inr (Or.inr (Or.inr (Or.inr (Or.inr (Or.inl
                        ⟨c, C, some s, true, rfl, rfl, hl, hcap, ?_⟩)))))
                      simp [stepOp,
                        add_child_success_self h c C (some s) true hl hcap rfl]
                · cases lb with
                  | none =>
                    refine Or.inr (Or.inr (Or.inr (Or.inr (Or.inr (Or.inr
                      ⟨l, c, L, C, none, lOk, rfl, rfl, hcl, hl, hc, hcap, ?_⟩)))))
                    simp [stepOp,
                      add_child_success_ne h l c L C none lOk hcl hl hc hcap rfl]
                  | some s =>
                    cases lOk with
                    | false =>
                      refine Or.inr (Or.inr (Or.inr (Or.inr (Or.inl
                        ⟨l, c, C, hc, ?_⟩))))
                      simp [stepOp, add_child_labelfail h l c L C s hl hc hcap]
                    | true =>
                      refine Or.inr (Or.inr (Or.inr (Or.inr (Or.inr (Or.inr
                        ⟨l, c, L, C, some s, true, rfl, rfl, hcl, hl, hc, hcap,
                         ?_⟩)))))
                      simp [stepOp,
                        add_child_success_ne h l c L C (some s) true hcl hl hc
                          hcap rfl]
        · exact Or.inl (by
            simp [stepOp, add_child_at_capacity h l L ch lb iOk lOk hl hcap])

theorem arena_get_set_elim' {α : Type} : ∀ (xs : List α) (i j : Nat) (a b : α),
    (xs.set i a)[j]? = some b →
      (i = j ∧ b = a ∧ j < xs.length) ∨ xs[j]? = some b
  | [], _, _, _, _, h => by simp at h
  | _ :: _, 0, 0, _, _, h =>
    Or.inl ⟨rfl, by simpa [List.set] using h.symm, Nat.succ_pos _⟩
  | _ :: _, 0, _ + 1, _, _, h => Or.inr (by simpa [List.set] using h)
  | _ :: _, _ + 1, 0, _, _, h => Or.inr (by simpa [List.set] using h)
  | x :: xs, i + 1, j + 1, a, b, h => by
    rcases arena_get_set_elim' xs i j a b (by simpa [List.set] using h) with
      ⟨hij, hb, hlen⟩ | h'
    · exact Or.inl ⟨by simp [hij], hb, Nat.succ_lt_succ hlen⟩
    · exact Or.inr (by simpa using h')

theorem linkAt_set_iff (h : Heap) (l : Nat) (L R : ActionMenuLevel)
    (hl : h[l]? = some L) (hitems : R.items = L.items) (j i c : Nat) :
    LinkAt (h.set l R) j i c ↔ LinkAt h j i c := by
  constructor
  · rintro ⟨L', it, hj, hi, hc⟩
    rcases arena_get_set_elim' h l j R L' hj with ⟨hlj, hLR, _⟩ | hj'
    · subst hlj
      subst hLR
      rw [hitems] at hi
      exact ⟨L, it, hl, hi, hc⟩
    · exact ⟨L', it, hj', hi, hc⟩
  · rintro ⟨L', it, hj, hi, hc⟩
    by_cases hlj : l = j
    · subst hlj
      rw [hl] at hj
      have hLL : L = L' := Option.some.inj hj
      subst hLL
      refine ⟨R, it, arena_get_set_self h l R (arena_get_lt h l L hl), ?_, hc⟩
      rw [hitems]; exact hi
    · exact ⟨L', it, by rw [arena_get_set_ne h l j R hlj]; exact hj, hi, hc⟩

theorem linkAt_append_item_of (h : Heap) (l : Nat) (L : ActionMenuLevel)
    (it0 : ActionMenuItem) (hl : h[l]? = some L) (j i c : Nat)
    (hlink : LinkAt h j i c) :
    LinkAt (h.set l { L with items := L.items ++ [it0],
                             num_items := L.num_items + 1 }) j i c := by
  obtain ⟨L', it, hj, hi, hc⟩ := hlink
  by_cases hlj : l = j
  · subst hlj
    rw [hl] at hj
    have hLL : L = L' := Option.some.inj hj
    subst hLL
    refine ⟨_, it, arena_get_set_self h l _ (arena_get_lt h l L hl), ?_, hc⟩
    have : i < L.items.length := arena_get_lt L.items i it hi
    simpa [arena_get_append_lt L.items [it0] i this] using hi
  · exact ⟨L', it, by rw [arena_get_set_ne h l j _ hlj]; exact hj, hi, hc⟩

theorem linkAt_append_item_to (h : Heap) (l : Nat) (L : ActionMenuLevel)
    (it0 : ActionMenuItem) (hl : h[l]? = some L) (j i c : Nat)
    (hlink : LinkAt (h.set l { L with
        items := L.items ++ [it0], num_items := L.num_items + 1 }) j i c) :
    LinkAt h j i c ∨ (j = l ∧ i = L.items.length ∧ it0.child = some c) := by
  obtain ⟨L', it, hj, hi, hc⟩ := hlink
  rcases arena_get_set_elim' h l j _ L' hj with ⟨hlj, hLR, _⟩ | hj'
  · subst hlj
    subst hLR
    rcases arena_get_append_elim' L.items it0 it i (by simpa using hi) with
      ⟨hlt, hg⟩ | ⟨hlen, hit⟩
    · exact Or.inl ⟨L, it, hl, hg, hc⟩
    · subst hit
      exact Or.inr ⟨rfl, hlen, hc⟩
  · exact Or.inl ⟨L', it, hj', hi, hc⟩

theorem linkAt_append_level_iff (h : Heap) (N : ActionMenuLevel)
    (hN : N.items = []) (j i c : Nat) :
    LinkAt (h ++ [N]) j i c ↔ LinkAt h j i c := by
  constructor
  · rintro ⟨L', it, hj, hi, hc⟩
    rcases arena_get_append_elim' h N L' j hj with ⟨_, hg⟩ | ⟨_, hLN⟩
    · exact ⟨L', it, hg, hi, hc⟩
    · subst hLN
      rw [hN] at hi
      simp at hi
  · rintro ⟨L', it, hj, hi, hc⟩
    exact ⟨L', it, by
      rw [arena_get_append_lt h [N] j (arena_get_lt h j L' hj)]; exact hj,
      hi, hc⟩

/-- Preservation of the build invariant by an arena write that keeps
the items, count and depth of the overwritten level. -/
theorem buildInv_set_preserving (h : Heap) (l : Nat) (L R : ActionMenuLevel)
    (hl : h[l]? = some L) (hitems : R.items = L.items)
    (hnum : R.num_items = L.num_items) (hlev : R.level = L.level)
    (hI : BuildInv h) : BuildInv (h.set l R) := by
  have hiff := linkAt_set_iff h l L R hl hitems
  have hlook : ∀ (x : Nat) (X : ActionMenuLevel), (h.set l R)[x]? = some X →
      ∃ X0, h[x]? = some X0 ∧ X.level = X0.level ∧
        X.num_items = X0.num_items ∧ X.items = X0.items := by
    intro x X hx
    rcases arena_get_set_elim' h l x R X hx with ⟨hlx, hXR, _⟩ | hx'
    · subst hlx
      subst hXR
      exact ⟨L, hl, hlev, hnum, hitems⟩
    · exact ⟨X, hx', rfl, rfl, rfl⟩
  refine ⟨?_, ?_, ?_, ?_, ?_⟩
  · intro j L' hj
    obtain ⟨X0, hx0, _, hn, hi⟩ := hlook j L' hj
    rw [hn, hi]
    exact hI.numLen j X0 hx0
  · intro j i c hlink
    rw [List.length_set]
    exact hI.childValid j i c ((hiff j i c).1 hlink)
  · intro j1 i1 j2 i2 c h1 h2
    exact hI.linkUnique j1 i1 j2 i2 c ((hiff j1 i1 c).1 h1) ((hiff j2 i2 c).1 h2)
  · obtain ⟨rank, hrank⟩ := hI.ranked
    exact ⟨rank, fun j i c hlink => hrank j i c ((hiff j i c).1 hlink)⟩
  · intro j i c hlink L' C' hj hc
    obtain ⟨L0, hL0, hLlev, _, _⟩ := hlook j L' hj
    obtain ⟨C0, hC0, hClev, _, _⟩ := hlook c C' hc
    rw [hLlev, hClev]
    exact hI.depthLink j i c ((hiff j i c).1 hlink) L0 C0 hL0 hC0

/-- Preservation of the build invariant when a childless item is
appended to a non-full level (an `add_action` success). -/
theorem buildInv_append_childless (h : Heap) (l : Nat) (L : ActionMenuLevel)
    (it0 : ActionMenuItem) (hl : h[l]? = some L) (hch : it0.child = none)
    (hI : BuildInv h) :
    BuildInv (h.set l { L with items := L.items ++ [it0],
                               num_items := L.num_items + 1 }) := by
  have hto : ∀ (j i c : Nat), LinkAt (h.set l { L with
      items := L.items ++ [it0], num_items := L.num_items + 1 }) j i c →
      LinkAt h j i c := by
    intro j i c hlink
    rcases linkAt_append_item_to h l L it0 hl j i c hlink with h' | ⟨_, _, hc0⟩
    · exact h'
    · rw [hch] at hc0; cases hc0
  have hlook : ∀ (x : Nat) (X : ActionMenuLevel), (h.set l { L with
      items := L.items ++ [it0], num_items := L.num_items + 1 })[x]? = some X →
      ∃ X0, h[x]? = some X0 ∧ X.level = X0.level := by
    intro x X hx
    rcases arena_get_set_elim' h l x _ X hx with ⟨hlx, hXR, _⟩ | hx'
    · subst hlx
      subst hXR
      exact ⟨L, hl, rfl⟩
    · exact ⟨X, hx', rfl⟩
  refine ⟨?_, ?_, ?_, ?_, ?_⟩
  · intro j L' hj
    rcases arena_get_set_elim' h l j _ L' hj with ⟨hlj, hXR, _⟩ | hj'
    · subst hlj
      subst hXR
      simp [hI.numLen l L hl]
    · exact hI.numLen j L' hj'
  · intro j i c hlink
    rw [List.length_set]
    exact hI.childValid j i c (hto j i c hlink)
  · intro j1 i1 j2 i2 c h1 h2
    exact hI.linkUnique j1 i1 j2 i2 c (hto j1 i1 c h1) (hto j2 i2 c h2)
  · obtain ⟨rank, hrank⟩ := hI.ranked
    exact ⟨rank, fun j i c hlink => hrank j i c (hto j i c hlink)⟩
  · intro j i c hlink L' C' hj hc
    obtain ⟨L0, hL0, hLlev⟩ := hlook j L' hj
    obtain ⟨C0, hC0, hClev⟩ := hlook c C' hc
    rw [hLlev, hClev]
    exact hI.depthLink j i c (hto j i c hlink) L0 C0 hL0 hC0

/-- Preservation of the build invariant when a fresh empty level is
appended (a `create` success). -/
theorem buildInv_append_level (h : Heap) (cap : Nat) (hI : BuildInv h) :
    BuildInv (h ++
      [{ max_items := cap % 65536, num_items := 0, items := [],
         display_mode := ActionMenuLevelDisplayMode.wide, level := 1,
         parent := none }]) := by
  have hiff := linkAt_append_level_iff h
      { max_items := cap % 65536, num_items := 0, items := [],
        display_mode := ActionMenuLevelDisplayMode.wide, level := 1,
        parent := none } rfl
  refine ⟨?_, ?_, ?_, ?_, ?_⟩
  · intro j L' hj
    rcases arena_get_append_elim' h _ L' j hj with ⟨_, hg⟩ | ⟨_, hLN⟩
    · exact hI.numLen j L' hg
    · subst hLN; rfl
  · intro j i c hlink
    have := hI.childValid j i c ((hiff j i c).1 hlink)
    simp only [List.length_append, List.length_cons, List.length_nil]
    omega
  · intro j1 i1 j2 i2 c h1 h2
    exact hI.linkUnique j1 i1 j2 i2 c ((hiff j1 i1 c).1 h1)
      ((hiff j2 i2 c).1 h2)
  · obtain ⟨rank, hrank⟩ := hI.ranked
    exact ⟨rank, fun j i c hlink => hrank j i c ((hiff j i c).1 hlink)⟩
  · intro j i c hlink L' C' hj hc
    have hlink0 := (hiff j i c).1 hlink
    have hjlt : j < h.length := by
      obtain ⟨L0, it, hj0, _, _⟩ := hlink0
      exact arena_get_lt h j L0 hj0
    have hclt : c < h.length := hI.childValid j i c hlink0
    rw [arena_get_append_lt h _ j hjlt] at hj
    rw [arena_get_append_lt h _ c hclt] at hc
    exact hI.depthLink j i c hlink0 L' C' hj hc

/-- Preservation of the build invariant by a top-down `add_child`
success: the child is distinct from the parent, not yet linked, and
owns no child items. -/
theorem buildInv_addchild_success (h : Heap) (l c : Nat)
    (L C Cmod : ActionMenuLevel) (itN : ActionMenuItem)
    (hCitems : Cmod.items = C.items) (hCnum : Cmod.num_items = C.num_items)
    (hClev : Cmod.level = (L.level + 1) % 65536)
    (hitChild : itN.child = some c)
    (hcl : c ≠ l) (hl : h[l]? = some L) (hc : h[c]? = some C)
    (hHL : hasLink h c = false) (hLC : levelHasChildItems h c = false)
    (hI : BuildInv h) :
    BuildInv ((h.set c Cmod).set l
      { L with items := L.items ++ [itN],
               num_items := L.num_items + 1 }) := by
  have hmidl : (h.set c Cmod)[l]? = some L := by
    rw [arena_get_set_ne h c l _ hcl]; exact hl
  have hmidc : (h.set c Cmod)[c]? = some Cmod :=
    arena_get_set_self h c _ (arena_get_lt h c C hc)
  have hmidiff := linkAt_set_iff h c C Cmod hc hCitems
  have hto : ∀ (j i d : Nat), LinkAt ((h.set c Cmod).set l
      { L with items := L.items ++ [itN],
               num_items := L.num_items + 1 }) j i d →
      LinkAt h j i d ∨ (j = l ∧ i = L.items.length ∧ d = c) := by
    intro j i d hlink
    rcases linkAt_append_item_to (h.set c Cmod) l L itN hmidl j i d hlink with
      h' | ⟨hj, hi, hd⟩
    · exact Or.inl ((hmidiff j i d).1 h')
    · rw [hitChild] at hd
      exact Or.inr ⟨hj, hi, (Option.some.inj hd).symm⟩
  have hof : ∀ (j i d : Nat), LinkAt h j i d →
      LinkAt ((h.set c Cmod).set l
        { L with items := L.items ++ [itN],
                 num_items := L.num_items + 1 }) j i d := by
    intro j i d hlink
    exact linkAt_append_item_of (h.set c Cmod) l L itN hmidl j i d
      ((hmidiff j i d).2 hlink)
  have hnolink : ∀ (j i : Nat), ¬ LinkAt h j i c := by
    intro j i hlink
    obtain ⟨L0, it0, hj0, hi0, hc0⟩ := hlink
    exact hasLink_false_spec h c hHL j L0 i it0 hj0 hi0 hc0
  have hnochild : ∀ (i d : Nat), ¬ LinkAt h c i d := by
    intro i d hlink
    obtain ⟨L0, it0, hj0, hi0, hc0⟩ := hlink
    rw [hc] at hj0
    have hCL : C = L0 := Option.some.inj hj0
    subst hCL
    have := levelHasChildItems_false_spec h c C hc hLC i it0 hi0
    rw [this] at hc0
    cases hc0
  have hlook : ∀ (x : Nat) (X : ActionMenuLevel),
      ((h.set c Cmod).set l
        { L with items := L.items ++ [itN],
                 num_items := L.num_items + 1 })[x]? = some X →
      (x = l ∧ X = { L with items := L.items ++ [itN],
                            num_items := L.num_items + 1 }) ∨
      (x = c ∧ X = Cmod) ∨ h[x]? = some X := by
    intro x X hx
    rcases arena_get_set_elim' (h.set c Cmod) l x _ X hx with ⟨hlx, hXR, _⟩ | hx'
    · exact Or.inl ⟨hlx.symm, hXR⟩
    · rcases arena_get_set_elim' h c x Cmod X hx' with ⟨hcx, hXR, _⟩ | hx''
      · exact Or.inr (Or.inl ⟨hcx.symm, hXR⟩)
      · exact Or.inr (Or.inr hx'')
  refine ⟨?_, ?_, ?_, ?_, ?_⟩
  · intro j L' hj
    rcases hlook j L' hj with ⟨_, hXR⟩ | ⟨_, hXR⟩ | hj'
    · subst hXR
      simp [hI.numLen l L hl]
    · subst hXR
      rw [hCnum, hCitems]
      exact hI.numLen c C hc
    · exact hI.numLen j L' hj'
  · intro j i d hlink
    simp only [List.length_set]
    rcases hto j i d hlink with h' | ⟨_, _, hd⟩
    · exact hI.childValid j i d h'
    · rw [hd]
      exact arena_get_lt h c C hc
  · intro j1 i1 j2 i2 d h1 h2
    rcases hto j1 i1 d h1 with h1' | ⟨hj1, hi1, hd1⟩
    · rcases hto j2 i2 d h2 with h2' | ⟨hj2, hi2, hd2⟩
      · exact hI.linkUnique j1 i1 j2 i2 d h1' h2'
      · rw [hd2] at h1'
        exact absurd h1' (hnolink j1 i1)
    · rcases hto j2 i2 d h2 with h2' | ⟨hj2, hi2, hd2⟩
      · rw [hd1] at h2'
        exact absurd h2' (hnolink j2 i2)
      · exact ⟨hj1.trans hj2.symm, hi1.trans hi2.symm⟩
  · obtain ⟨rank, hrank⟩ := hI.ranked
    refine ⟨fun x => if x = c then rank l + 1 else rank x, ?_⟩
    intro j i d hlink
    rcases hto j i d hlink with h' | ⟨hj, _, hd⟩
    · have hdc : d ≠ c := by
        intro hx
        subst hx
        exact hnolink j i h'
      have hjc : j ≠ c := by
        intro hx
        subst hx
        exact hnochild i d h'
      simp only [if_neg hdc, if_neg hjc]
      exact hrank j i d h'
    · have hlc : l ≠ c := fun hx => hcl hx.symm
      rw [hj, hd]
      simp [hlc]
  · intro j i d hlink L' C' hj' hd'
    rcases hto j i d hlink with h' | ⟨hj, _, hd⟩
    · have hdc : d ≠ c := by
        intro hx
        subst hx
        exact hnolink j i h'
      have hjc : j ≠ c := by
        intro hx
        subst hx
        exact hnochild i d h'
      have hlevL : ∃ L0, h[j]? = some L0 ∧ L'.level = L0.level := by
        rcases hlook j L' hj' with ⟨hxj, hXR⟩ | ⟨hx, _⟩ | hj''
        · subst hXR
          rw [hxj]
          exact ⟨L, hl, rfl⟩
        · exact absurd hx hjc
        · exact ⟨L', hj'', rfl⟩
      have hlevC : ∃ C0, h[d]? = some C0 ∧ C'.level = C0.level := by
        rcases hlook d C' hd' with ⟨hxd, hXR⟩ | ⟨hx, _⟩ | hd''
        · subst hXR
          rw [hxd]
          exact ⟨L, hl, rfl⟩
        · exact absurd hx hdc
        · exact ⟨C', hd'', rfl⟩
      obtain ⟨L0, hL0, hLlev⟩ := hlevL
      obtain ⟨C0, hC0, hClev2⟩ := hlevC
      rw [hLlev, hClev2]
      exact hI.depthLink j i d h' L0 C0 hL0 hC0
    · rw [hj] at hj' hlink
      rw [hd] at hd'
      have h'l : ((h.set c Cmod).set l
          { L with items := L.items ++ [itN],
                   num_items := L.num_items + 1 })[l]? =
          some { L with items := L.items ++ [itN],
                        num_items := L.num_items + 1 } :=
        arena_get_set_self (h.set c Cmod) l _
          (by rw [List.length_set]; exact arena_get_lt h l L hl)
      have h'c : ((h.set c Cmod).set l
          { L with items := L.items ++ [itN],
                   num_items := L.num_items + 1 })[c]? = some Cmod := by
        rw [arena_get_set_ne (h.set c Cmod) l c _ (fun hx => hcl hx.symm)]
        exact hmidc
      rw [h'l] at hj'
      rw [h'c] at hd'
      have hL' : _ = L' := Option.some.inj hj'
      have hC' : Cmod = C' := Option.some.inj hd'
      rw [← hC', ← hL', hClev]

theorem buildInv_empty : BuildInv [] := by
  refine ⟨?_, ?_, ?_, ⟨fun _ => 0, ?_⟩, ?_⟩
  · intro j L hj; simp at hj
  · rintro j i c ⟨L, it, hj, _, _⟩; simp at hj
  · rintro j1 i1 j2 i2 c ⟨L, it, hj, _, _⟩ _; simp at hj
  · rintro j i c ⟨L, it, hj, _, _⟩; simp at hj
  · rintro j i c ⟨L, it, hj, _, _⟩; simp at hj

theorem buildInv_step (h : Heap) (op : BuilderOp) (hI : BuildInv h)
    (htd : tdOk h op = true) : BuildInv (stepOp h op) := by
  rcases stepOp_shape h op with hid | ⟨cap, heq⟩ | ⟨l, L, mode, hl, heq⟩ |
    ⟨l, L, it0, hl, hcap, hch, heq⟩ | ⟨l, c, C, hc, heq⟩ |
    ⟨l, L, lb, lOk, hop, hguard, hl, hcap, heq⟩ |
    ⟨l, c, L, C, lb, lOk, hop, hguard, hcl, hl, hc, hcap, heq⟩
  · rw [hid]; exact hI
  · rw [heq]; exact buildInv_append_level h cap hI
  · rw [heq]; exact buildInv_set_preserving h l L _ hl rfl rfl rfl hI
  · rw [heq]; exact buildInv_append_childless h l L it0 hl hch hI
  · rw [heq]; exact buildInv_set_preserving h c C _ hc rfl rfl rfl hI
  · exfalso
    subst hop
    have hok : addChildOk h (some l) (some l) lb true lOk = true := by
      simp [addChildOk, hl, hcap, hguard]
    simp only [tdOk, hok, if_true] at htd
    simp at htd
  · rw [heq]
    subst hop
    have hok : addChildOk h (some l) (some c) lb true lOk = true := by
      simp [addChildOk, hl, hc, hcap, hguard]
    have hcond := htd
    simp only [tdOk, hok, if_true] at hcond
    rw [Bool.and_eq_true, Bool.and_eq_true] at hcond
    obtain ⟨⟨ha, hb⟩, h3⟩ := hcond
    have h1 : hasLink h c = false := by simpa using hb
    have h2 : levelHasChildItems h c = false := by simpa using h3
    exact buildInv_addchild_success h l c L C _ _ rfl rfl rfl rfl hcl hl hc
      h1 h2 hI

theorem buildInv_run : ∀ (ops : List BuilderOp) (h : Heap), BuildInv h →
    topDownFrom h ops = true → BuildInv (runFrom h ops)
  | [], _, hI, _ => hI
  | op :: rest, h, hI, htd => by
    rw [runFrom]
    have hsplit : tdOk h op = true ∧ topDownFrom (stepOp h op) rest = true := by
      rw [topDownFrom, Bool.and_eq_true] at htd
      exact htd
    exact buildInv_run rest (stepOp h op) (buildInv_step h op hI hsplit.1)
      hsplit.2

theorem buildInv_buildHeap (ops : List BuilderOp)
    (htd : topDownFrom [] ops = true) : BuildInv (buildHeap ops) :=
  buildInv_run ops [] buildInv_empty htd

/-! ## Claim C4: depth invariant -/

theorem linkAt_items_extend_of (h : Heap) (l : Nat) (L R : ActionMenuLevel)
    (it0 : ActionMenuItem) (hl : h[l]? = some L)
    (hitems : R.items = L.items ++ [it0]) (j i c : Nat)
    (hlink : LinkAt h j i c) : LinkAt (h.set l R) j i c := by
  obtain ⟨L', it, hj, hi, hc⟩ := hlink
  by_cases hlj : l = j
  · subst hlj
    rw [hl] at hj
    have hLL : L = L' := Option.some.inj hj
    subst hLL
    refine ⟨R, it, arena_get_set_self h l R (arena_get_lt h l L hl), ?_, hc⟩
    rw [hitems]
    have : i < L.items.length := arena_get_lt L.items i it hi
    rw [arena_get_append_lt L.items [it0] i this]
    exact hi
  · exact ⟨L', it, by rw [arena_get_set_ne h l j R hlj]; exact hj, hi, hc⟩

theorem depthOne_set_preserving (h : Heap) (y : Nat) (Ly R : ActionMenuLevel)
    (hy : h[y]? = some Ly) (hitems : R.items = Ly.items)
    (hlev : R.level = Ly.level)
    (hinv : ∀ (c : Nat) (C : ActionMenuLevel), h[c]? = some C →
      hasLink h c = false → C.level = 1) :
    ∀ (x : Nat) (X : ActionMenuLevel), (h.set y R)[x]? = some X →
      hasLink (h.set y R) x = false → X.level = 1 := by
  intro x X hx hfalse
  have hfx : hasLink h x = false := by
    refine hasLink_false_of_subset h _ x ?_ hfalse
    intro j L0 i it hj hi hcx
    obtain ⟨L1, it1, h1, h2, h3⟩ :=
      (linkAt_set_iff h y Ly R hy hitems j i x).2 ⟨L0, it, hj, hi, hcx⟩
    exact ⟨j, L1, i, it1, h1, h2, h3⟩
  rcases arena_get_set_elim' h y x R X hx with ⟨hyx, hXR, _⟩ | hx'
  · subst hXR
    rw [hlev]
    refine hinv y Ly hy ?_
    rw [hyx]
    exact hfx
  · exact hinv x X hx' hfx

theorem depthOne_step (h : Heap)
    (hinv : ∀ (c : Nat) (C : ActionMenuLevel), h[c]? = some C →
      hasLink h c = false → C.level = 1) (op : BuilderOp) :
    ∀ (c : Nat) (C : ActionMenuLevel), (stepOp h op)[c]? = some C →
      hasLink (stepOp h op) c = false → C.level = 1 := by
  rcases stepOp_shape h op with hid | ⟨cap, heq⟩ | ⟨l, L, mode, hl, heq⟩ |
    ⟨l, L, it0, hl, hcap, hch, heq⟩ | ⟨l, c0, C0, hc0, heq⟩ |
    ⟨l, L, lb, lOk, hop, hguard, hl, hcap, heq⟩ |
    ⟨l, c0, L, C0, lb, lOk, hop, hguard, hcl, hl, hc0, hcap, heq⟩
  · rw [hid]; exact hinv
  · rw [heq]
    intro x X hx hfalse
    rcases arena_get_append_elim' h _ X x hx with ⟨hxlt, hg⟩ | ⟨_, hXN⟩
    · refine hinv x X hg ?_
      refine hasLink_false_of_subset h _ x ?_ hfalse
      intro j L0 i it hj hi hcx
      refine ⟨j, L0, i, it, ?_, hi, hcx⟩
      rw [arena_get_append_lt h _ j (arena_get_lt h j L0 hj)]
      exact hj
    · subst hXN; rfl
  · rw [heq]
    exact depthOne_set_preserving h l L _ hl rfl rfl hinv
  · rw [heq]
    intro x X hx hfalse
    have hfx : hasLink h x = false := by
      refine hasLink_false_of_subset h _ x ?_ hfalse
      intro j L0 i it hj hi hcx
      obtain ⟨L1, it1, h1, h2, h3⟩ :=
        linkAt_items_extend_of h l L
          { L with items := L.items ++ [it0], num_items := L.num_items + 1 }
          it0 hl rfl j i x ⟨L0, it, hj, hi, hcx⟩
      exact ⟨j, L1, i, it1, h1, h2, h3⟩
    rcases arena_get_set_elim' h l x _ X hx with ⟨hlx, hXR, _⟩ | hx'
    · subst hXR
      refine hinv l L hl ?_
      rw [hlx]
      exact hfx
    · exact hinv x X hx' hfx
  · rw [heq]
    exact depthOne_set_preserving h c0 C0 _ hc0 rfl rfl hinv
  · rw [heq]
    intro x X hx hfalse
    by_cases hxl : x = l
    · exfalso
      have hlink : hasLink (h.set l
          { L with parent := some l, level := (L.level + 1) % 65536,
                   items := L.items ++
                     [{ label := lb, action_data := none, cb := none,
                        child := some l }],
                   num_items := L.num_items + 1 }) l = true := by
        refine (hasLink_iff _ l).2 ⟨l, _, L.items.length,
          { label := lb, action_data := none, cb := none, child := some l },
          arena_get_set_self h l _ (arena_get_lt h l L hl), ?_, rfl⟩
        simpa using arena_get_append_self L.items
          { label := lb, action_data := none, cb := none, child := some l }
      rw [hxl] at hfalse
      rw [hfalse] at hlink
      cases hlink
    · have hfx : hasLink h x = false := by
        refine hasLink_false_of_subset h _ x ?_ hfalse
        intro j L0 i it hj hi hcx
        obtain ⟨L1, it1, h1, h2, h3⟩ :=
          linkAt_items_extend_of h l L
            { L with parent := some l, level := (L.level + 1) % 65536,
                     items := L.items ++
                       [{ label := lb, action_data := none, cb := none,
                          child := some l }],
                     num_items := L.num_items + 1 }
            { label := lb, action_data := none, cb := none, child := some l }
            hl rfl j i x ⟨L0, it, hj, hi, hcx⟩
        exact ⟨j, L1, i, it1, h1, h2, h3⟩
      rcases arena_get_set_elim' h l x _ X hx with ⟨hlx, hXR, _⟩ | hx'
      · exact absurd hlx.symm hxl
      · exact hinv x X hx' hfx
  · rw [heq]
    intro x X hx hfalse
    have hmidl : (h.set c0
        { C0 with parent := some l, level := (L.level + 1) % 65536 })[l]? =
        some L := by
      rw [arena_get_set_ne h c0 l _ hcl]; exact hl
    have hmap : ∀ (j : Nat) (L0 : ActionMenuLevel) (i : Nat)
        (it : ActionMenuItem), h[j]? = some L0 → L0.items[i]? = some it →
        it.child = some x →
        ∃ (j' : Nat) (L' : ActionMenuLevel) (i' : Nat) (it' : ActionMenuItem),
          ((h.set c0
              { C0 with parent := some l, level := (L.level + 1) % 65536 }).set l
            { L with items := L.items ++
                       [{ label := lb, action_data := none, cb := none,
                          child := some c0 }],
                     num_items := L.num_items + 1 })[j']? = some L' ∧
          L'.items[i']? = some it' ∧ it'.child = some x := by
      intro j L0 i it hj hi hcx
      have hmid := (linkAt_set_iff h c0 C0
          { C0 with parent := some l, level := (L.level + 1) % 65536 }
          hc0 rfl j i x).2 ⟨L0, it, hj, hi, hcx⟩
      obtain ⟨L1, it1, h1, h2, h3⟩ :=
        linkAt_items_extend_of (h.set c0
            { C0 with parent := some l, level := (L.level + 1) % 65536 }) l L
          { L with items := L.items ++
                     [{ label := lb, action_data := none, cb := none,
                        child := some c0 }],
                   num_items := L.num_items + 1 }
          { label := lb, action_data := none, cb := none, child := some c0 }
          hmidl rfl j i x hmid
      exact ⟨j, L1, i, it1, h1, h2, h3⟩
    by_cases hxc : x = c0
    · exfalso
      have hlink : hasLink ((h.set c0
          { C0 with parent := some l, level := (L.level + 1) % 65536 }).set l
          { L with items := L.items ++
                     [{ label := lb, action_data := none, cb := none,
                        child := some c0 }],
                   num_items := L.num_items + 1 }) c0 = true := by
        refine (hasLink_iff _ c0).2 ⟨l, _, L.items.length,
          { label := lb, action_data := none, cb := none, child := some c0 },
          arena_get_set_self _ l _
            (by rw [List.length_set]; exact arena_get_lt h l L hl), ?_, rfl⟩
        simpa using arena_get_append_self L.items
          { label := lb, action_data := none, cb := none, child := some c0 }
      rw [hxc] at hfalse
      rw [hfalse] at hlink
      cases hlink
    · have hfx : hasLink h x = false :=
        hasLink_false_of_subset h _ x hmap hfalse
      rcases arena_get_set_elim' _ l x _ X hx with ⟨hlx, hXR, _⟩ | hx'
      · subst hXR
        refine hinv l L hl ?_
        rw [← hlx] at hfx
        exact hfx
      · rcases arena_get_set_elim' h c0 x _ X hx' with ⟨hcx, _, _⟩ | hx''
        · exact absurd hcx.symm hxc
        · exact hinv x X hx'' hfx

theorem depthOne_run : ∀ (ops : List BuilderOp) (h : Heap),
    (∀ (c : Nat) (C : ActionMenuLevel), h[c]? = some C →
      hasLink h c = false → C.level = 1) →
    ∀ (c : Nat) (C : ActionMenuLevel), (runFrom h ops)[c]? = some C →
      hasLink (runFrom h ops) c = false → C.level = 1
  | [], _, hinv => hinv
  | op :: rest, h, hinv =>
    depthOne_run rest (stepOp h op) (depthOne_step h hinv op)

/-- Claim C4 (amended): the exact depth invariant
`child.depth = owner.depth + 1` holds for hierarchies built *top-down*
(each successful `add_child` links a level that is distinct from its
parent, not yet linked, and still childless), with `uint16_t`
truncation of `depth + 1`; for other call orders the code leaves stale
depths (see the bottom-up counterexample).  The second part of the
claim holds for *every* call sequence: a level never passed as the
child of a successful `add_child` (that is, with no incoming link)
keeps `depth = 1`. -/
theorem C4_depth_invariant :
    (∀ (ops : List BuilderOp), topDownFrom [] ops = true →
      ∀ (j i c : Nat) (L C : ActionMenuLevel), (buildHeap ops)[j]? = some L →
        (buildHeap ops)[c]? = some C → LinkAt (buildHeap ops) j i c →
        C.level = (L.level + 1) % 65536 ∧
        (L.level + 1 < 65536 → C.level = L.level + 1)) ∧
    (∀ (ops : List BuilderOp) (c : Nat) (C : ActionMenuLevel),
      (buildHeap ops)[c]? = some C → hasLink (buildHeap ops) c = false →
      C.level = 1) := by
  constructor
  · intro ops htd j i c L C hL hC hlink
    have hmod := (buildInv_buildHeap ops htd).depthLink j i c hlink L C hL hC
    refine ⟨hmod, fun hlt => ?_⟩
    rw [hmod]
    exact Nat.mod_eq_of_lt hlt
  · intro ops c C hC hfalse
    exact depthOne_run ops [] (by intro c' C' hc'; simp at hc') c C hC hfalse

/-- Claim C4 counterexample: building bottom-up (link the grandchild
first, then link the middle level under the root) leaves the
grandchild at depth 2 while its owning level also has depth 2, so
`i.child.depth = owner.depth + 1` fails for that item even though the
hierarchy was built purely by builder calls. -/
theorem C4_counterexample :
    depthInvariantB (buildHeap opsBottomUp) = false ∧
    ((buildHeap opsBottomUp)[1]?).map ActionMenuLevel.level = some 2 ∧
    ((buildHeap opsBottomUp)[2]?).map ActionMenuLevel.level = some 2 ∧
    ((buildHeap opsBottomUp)[1]?).map
        (fun L => L.items.map (fun it => it.child)) = some [some 2] :=
  ⟨by decide, by decide, by decide, by decide⟩

/-- Claim C4 witness: in the top-down scenario hierarchy, the child
level linked under the depth-1 root has stored depth (1 + 1) mod
65536 = 2. -/
theorem C4_witness :
    ({ max_items := 1, num_items := 1,
       items := [{ label := some "C", action_data := none, cb := some 11,
                   child := none }],
       display_mode := ActionMenuLevelDisplayMode.wide, level := 2,
       parent := some 0 } : ActionMenuLevel).level =
      (({ max_items := 2, num_items := 2,
          items := [{ label := some "A", action_data := none, cb := some 10,
                      child := none },
                    { label := some "B", action_data := none, cb := none,
                      child := some 1 }],
          display_mode := ActionMenuLevelDisplayMode.wide, level := 1,
          parent := none } : ActionMenuLevel).level + 1) % 65536 :=
  (C4_depth_invariant.1 opsScenario (by decide) 0 1 1 _ _ rfl rfl
    ⟨_, _, rfl, rfl, rfl⟩).1

/-! ## Claim C1: hierarchy destruction -/

theorem arena_get_take {α : Type} : ∀ (n : Nat) (xs : List α) (i : Nat) (a : α),
    (List.take n xs)[i]? = some a → xs[i]? = some a ∧ i < n
  | 0, _, _, _, h => by simp at h
  | _ + 1, [], _, _, h => by simp at h
  | _ + 1, _ :: _, 0, _, h => ⟨by simpa using h, Nat.succ_pos _⟩
  | n + 1, x :: xs, i + 1, a, h => by
    obtain ⟨h1, h2⟩ := arena_get_take n xs i a (by simpa using h)
    exact ⟨by simpa using h1, Nat.succ_lt_succ h2⟩

theorem arena_get_take_of {α : Type} : ∀ (n : Nat) (xs : List α) (i : Nat) (a : α),
    i < n → xs[i]? = some a → (List.take n xs)[i]? = some a
  | 0, _, _, _, h, _ => absurd h (Nat.not_lt_zero _)
  | _ + 1, [], _, _, _, hx => by simp at hx
  | _ + 1, _ :: _, 0, _, _, hx => by simpa using hx
  | n + 1, x :: xs, i + 1, a, h, hx => by
    simpa using arena_get_take_of n xs i a (Nat.lt_of_succ_lt_succ h)
      (by simpa using hx)

theorem arena_get_exists {α : Type} : ∀ (xs : List α) (i : Nat),
    i < xs.length → ∃ a, xs[i]? = some a
  | [], _, h => absurd h (by simp)
  | x :: _, 0, _ => ⟨x, by simp⟩
  | _ :: xs, i + 1, h => by
    obtain ⟨a, ha⟩ := arena_get_exists xs i (Nat.lt_of_succ_lt_succ h)
    exact ⟨a, by simpa using ha⟩

theorem mem_le_foldr_max : ∀ (l : List Nat) (a : Nat), a ∈ l →
    a ≤ l.foldr max 0
  | [], a, ha => absurd ha (List.not_mem_nil a)
  | x :: xs, a, ha => by
    rcases List.mem_cons.1 ha with h | h
    · subst h
      simpa using Nat.le_max_left a (xs.foldr max 0)
    · simpa using Nat.le_trans (mem_le_foldr_max xs a h)
        (Nat.le_max_right x (xs.foldr max 0))

theorem reach_trans (h : Heap) (r p q : Nat) (h1 : Reach h r p)
    (h2 : Reach h p q) : Reach h r q := by
  induction h2 with
  | refl => exact h1
  | step hp hL hit hc ih => exact Reach.step ih hL hit hc

/-- A link reached through the populated item slots, converted to
`LinkAt` over the full item list. -/
theorem linkAt_of_take (h : Heap) (p i c : Nat) (L : ActionMenuLevel)
    (it : ActionMenuItem) (hp : h[p]? = some L)
    (hit : (L.items.take L.num_items)[i]? = some it)
    (hc : it.child = some c) : LinkAt h p i c :=
  ⟨L, it, hp, (arena_get_take L.num_items L.items i it hit).1, hc⟩

theorem go_cons_inv (recur : Nat → Option (List (Nat × Nat))) (r : Nat)
    (it0 : ActionMenuItem) (rest : List ActionMenuItem) (i0 : Nat)
    (vs : List (Nat × Nat))
    (hgo : destroyItemsGo recur r (it0 :: rest) i0 = some vs) :
    ∃ sub tail,
      (match it0.child with | some c => recur c | none => some []) = some sub ∧
      destroyItemsGo recur r rest (i0 + 1) = some tail ∧
      vs = sub ++ (r, i0) :: tail := by
  rw [destroyItemsGo] at hgo
  cases hsub : (match it0.child with | some c => recur c | none => some []) with
  | none => rw [hsub] at hgo; cases hgo
  | some sub =>
    rw [hsub] at hgo
    cases htail : destroyItemsGo recur r rest (i0 + 1) with
    | none => rw [htail] at hgo; cases hgo
    | some tail =>
      rw [htail] at hgo
      exact ⟨sub, tail, rfl, rfl, (Option.some.inj hgo).symm⟩

theorem go_mem_self (recur : Nat → Option (List (Nat × Nat))) (r : Nat) :
    ∀ (its : List ActionMenuItem) (i0 : Nat) (vs : List (Nat × Nat)),
      destroyItemsGo recur r its i0 = some vs →
      ∀ (k : Nat) (it : ActionMenuItem), its[k]? = some it → (r, i0 + k) ∈ vs
  | [], _, _, _, _, _, hk => by simp at hk
  | it0 :: rest, i0, vs, hgo, 0, it, hk => by
    obtain ⟨sub, tail, _, _, hvs⟩ := go_cons_inv recur r it0 rest i0 vs hgo
    subst hvs
    simp
  | it0 :: rest, i0, vs, hgo, k + 1, it, hk => by
    obtain ⟨sub, tail, _, htail, hvs⟩ := go_cons_inv recur r it0 rest i0 vs hgo
    subst hvs
    have := go_mem_self recur r rest (i0 + 1) tail htail k it (by simpa using hk)
    have harith : i0 + 1 + k = i0 + (k + 1) := by omega
    rw [harith] at this
    simp [this]

theorem go_elem_src (recur : Nat → Option (List (Nat × Nat))) (r : Nat) :
    ∀ (its : List ActionMenuItem) (i0 : Nat) (vs : List (Nat × Nat)),
      destroyItemsGo recur r its i0 = some vs →
      ∀ x ∈ vs, (x.1 = r ∧ i0 ≤ x.2 ∧ x.2 < i0 + its.length) ∨
        ∃ (k : Nat) (it : ActionMenuItem) (c : Nat) (sub : List (Nat × Nat)),
          its[k]? = some it ∧ it.child = some c ∧ recur c = some sub ∧ x ∈ sub
  | [], _, vs, hgo, x, hx => by
    rw [destroyItemsGo] at hgo
    rw [← Option.some.inj hgo] at hx
    simp at hx
  | it0 :: rest, i0, vs, hgo, x, hx => by
    obtain ⟨sub, tail, hsub, htail, hvs⟩ := go_cons_inv recur r it0 rest i0 vs hgo
    subst hvs
    rcases List.mem_append.1 hx with hx' | hx'
    · cases hchild : it0.child with
      | none =>
        rw [hchild] at hsub
        have : sub = [] := (Option.some.inj hsub).symm
        subst this
        simp at hx'
      | some c =>
        rw [hchild] at hsub
        exact Or.inr ⟨0, it0, c, sub, by simp, hchild, hsub, hx'⟩
    · rcases List.mem_cons.1 hx' with hx'' | hx''
      · subst hx''
        exact Or.inl ⟨rfl, Nat.le_refl _, by simp⟩
      · rcases go_elem_src recur r rest (i0 + 1) tail htail x hx'' with
          ⟨h1, h2, h3⟩ | ⟨k, it, c, sub', h1, h2, h3, h4⟩
        · refine Or.inl ⟨h1, Nat.le_of_succ_le h2, ?_⟩
          simp only [List.length_cons]
          omega
        · exact Or.inr ⟨k + 1, it, c, sub', by simpa using h1, h2, h3, h4⟩

theorem go_decomp (recur : Nat → Option (List (Nat × Nat))) (r : Nat) :
    ∀ (its : List ActionMenuItem) (i0 : Nat) (vs : List (Nat × Nat)),
      destroyItemsGo recur r its i0 = some vs →
      ∀ (k : Nat) (it : ActionMenuItem) (c : Nat), its[k]? = some it →
        it.child = some c →
        ∃ A sub B, recur c = some sub ∧ vs = A ++ sub ++ (r, i0 + k) :: B
  | [], _, _, _, k, _, _, hk, _ => by simp at hk
  | it0 :: rest, i0, vs, hgo, 0, it, c, hk, hc => by
    obtain ⟨sub, tail, hsub, _, hvs⟩ := go_cons_inv recur r it0 rest i0 vs hgo
    have hit : it0 = it := by simpa using hk
    subst hit
    rw [hc] at hsub
    exact ⟨[], sub, tail, hsub, by simp [hvs]⟩
  | it0 :: rest, i0, vs, hgo, k + 1, it, c, hk, hc => by
    obtain ⟨sub, tail, hsub, htail, hvs⟩ := go_cons_inv recur r it0 rest i0 vs hgo
    obtain ⟨A, sub', B, hrec, htail'⟩ :=
      go_decomp recur r rest (i0 + 1) tail htail k it c (by simpa using hk) hc
    refine ⟨sub ++ (r, i0) :: A, sub', B, hrec, ?_⟩
    have harith : i0 + 1 + k = i0 + (k + 1) := by omega
    rw [hvs, htail', harith]
    simp

theorem go_some (recur : Nat → Option (List (Nat × Nat))) (r : Nat) :
    ∀ (its : List ActionMenuItem) (i0 : Nat),
      (∀ (k : Nat) (it : ActionMenuItem) (c : Nat), its[k]? = some it →
        it.child = some c → (recur c).isSome = true) →
      (destroyItemsGo recur r its i0).isSome = true
  | [], _, _ => rfl
  | it0 :: rest, i0, hrec => by
    rw [destroyItemsGo]
    have hhead : (match it0.child with
        | some c => recur c | none => some []).isSome = true := by
      cases hchild : it0.child with
      | none => rfl
      | some c => exact hrec 0 it0 c (by simp) hchild
    have htail : (destroyItemsGo recur r rest (i0 + 1)).isSome = true :=
      go_some recur r rest (i0 + 1)
        (fun k it c hk hc => hrec (k + 1) it c (by simpa using hk) hc)
    cases hsub : (match it0.child with | some c => recur c | none => some []) with
    | none => rw [hsub] at hhead; cases hhead
    | some sub =>
      cases htl : destroyItemsGo recur r rest (i0 + 1) with
      | none => rw [htl] at htail; cases htail
      | some tail => rfl

theorem destroy_mem_reach (h : Heap) (hI : ForestInv h) :
    ∀ (f r : Nat) (vs : List (Nat × Nat)), destroyLevel h f r = some vs →
      ∀ x ∈ vs, ∃ L, h[x.1]? = some L ∧ Reach h r x.1 ∧ x.2 < L.num_items := by
  intro f
  induction f with
  | zero =>
    intro r vs hd
    rw [destroyLevel] at hd
    cases hd
  | succ f ih =>
    intro r vs hd x hx
    rw [destroyLevel] at hd
    cases hr : h[r]? with
    | none => rw [hr] at hd; cases hd
    | some L =>
      rw [hr] at hd
      rcases go_elem_src (destroyLevel h f) r _ 0 vs hd x hx with
        ⟨h1, _, h3⟩ | ⟨k, it, c, sub, hk, hc, hrec, hxsub⟩
      · refine ⟨L, by rw [h1]; exact hr, by rw [h1]; exact Reach.refl, ?_⟩
        have hlen : (L.items.take L.num_items).length = L.num_items := by
          rw [List.length_take, hI.numLen r L hr]
          exact Nat.min_self _
        rw [hlen] at h3
        omega
      · obtain ⟨L', hx1, hreach, hx2⟩ := ih c sub hrec x hxsub
        exact ⟨L', hx1, reach_trans h r c x.1
          (Reach.step Reach.refl hr hk hc) hreach, hx2⟩

theorem destroy_sub (h : Heap) (f r : Nat) (vs : List (Nat × Nat))
    (hd : destroyLevel h f r = some vs) :
    ∀ (l : Nat), Reach h r l → ∃ (f' : Nat) (vs' A B : List (Nat × Nat)),
      destroyLevel h f' l = some vs' ∧ vs = A ++ vs' ++ B := by
  intro l hreach
  induction hreach with
  | refl => exact ⟨f, vs, [], [], hd, by simp⟩
  | @step p c L it i hp hL hit hc ih =>
    obtain ⟨fp, vsp, A, B, hdp, hcat⟩ := ih
    cases fp with
    | zero => rw [destroyLevel] at hdp; cases hdp
    | succ fq =>
      rw [destroyLevel] at hdp
      rw [hL] at hdp
      obtain ⟨A', sub, B', hrec, hvsp⟩ :=
        go_decomp (destroyLevel h fq) p _ 0 vsp hdp i it c hit hc
      refine ⟨fq, sub, A ++ A', ((p, 0 + i) :: B') ++ B, hrec, ?_⟩
      rw [hcat, hvsp]
      simp

theorem destroy_mem_of_reach (h : Heap) (hI : ForestInv h) (f r : Nat)
    (vs : List (Nat × Nat)) (hd : destroyLevel h f r = some vs)
    (l : Nat) (L : ActionMenuLevel) (i : Nat) (hreach : Reach h r l)
    (hl : h[l]? = some L) (hi : i < L.num_items) : (l, i) ∈ vs := by
  obtain ⟨f', vs', A, B, hd', hcat⟩ := destroy_sub h f r vs hd l hreach
  cases f' with
  | zero => rw [destroyLevel] at hd'; cases hd'
  | succ f'' =>
    rw [destroyLevel] at hd'
    rw [hl] at hd'
    have hlen : i < (L.items.take L.num_items).length := by
      rw [List.length_take]
      have := hI.numLen l L hl
      omega
    obtain ⟨it, hit⟩ := arena_get_exists _ i hlen
    have hmem := go_mem_self (destroyLevel h f'') l _ 0 vs' hd' i it hit
    rw [Nat.zero_add] at hmem
    rw [hcat]
    simp only [List.mem_append]
    exact Or.inl (Or.inr hmem)

theorem reach_rank_le (h : Heap) (rank : Nat → Nat)
    (hrank : ∀ (j i c : Nat), LinkAt h j i c → rank c = rank j + 1)
    (a b : Nat) (hr : Reach h a b) : rank a ≤ rank b := by
  induction hr with
  | refl => exact Nat.le_refl _
  | @step p c L it i hp hL hit hc ih =>
    have := hrank p i c (linkAt_of_take h p i c L it hL hit hc)
    omega

theorem reach_disjoint (h : Heap) (rank : Nat → Nat)
    (hrank : ∀ (j i c : Nat), LinkAt h j i c → rank c = rank j + 1)
    (hI : ForestInv h) (p i1 i2 c1 c2 : Nat)
    (hl1 : LinkAt h p i1 c1) (hl2 : LinkAt h p i2 c2) (hne : c1 ≠ c2) :
    ∀ (n x : Nat), rank x = n → Reach h c1 x → Reach h c2 x → False := by
  intro n
  induction n using Nat.strong_induction_on with
  | _ n ih =>
    intro x hrx hR1 hR2
    cases hR1 with
    | refl =>
      cases hR2 with
      | refl => exact hne rfl
      | @step q c L it j hq hL hit hc =>
        have hlq : LinkAt h q j c1 := linkAt_of_take h q j c1 L it hL hit hc
        obtain ⟨hqp, _⟩ := hI.linkUnique q j p i1 c1 hlq hl1
        subst hqp
        have h1 := reach_rank_le h rank hrank c2 q hq
        have h2 := hrank q i1 c1 hl1
        have h3 := hrank q i2 c2 hl2
        omega
    | @step q1 cx L1 it1 j1 hq1 hL1 hit1 hc1 =>
      cases hR2 with
      | refl =>
        have hlq : LinkAt h q1 j1 c2 :=
          linkAt_of_take h q1 j1 c2 L1 it1 hL1 hit1 hc1
        obtain ⟨hqp, _⟩ := hI.linkUnique q1 j1 p i2 c2 hlq hl2
        subst hqp
        have h1 := reach_rank_le h rank hrank c1 q1 hq1
        have h2 := hrank q1 i1 c1 hl1
        have h3 := hrank q1 i2 c2 hl2
        omega
      | @step q2 cy L2 it2 j2 hq2 hL2 hit2 hc2 =>
        have hlq1 : LinkAt h q1 j1 x :=
          linkAt_of_take h q1 j1 x L1 it1 hL1 hit1 hc1
        have hlq2 : LinkAt h q2 j2 x :=
          linkAt_of_take h q2 j2 x L2 it2 hL2 hit2 hc2
        obtain ⟨hq, _⟩ := hI.linkUnique q1 j1 q2 j2 x hlq1 hlq2
        subst hq
        have hrn : rank q1 = rank x - 1 ∧ rank q1 < rank x := by
          have := hrank q1 j1 x hlq1
          omega
        exact ih (rank q1) (by omega) q1 rfl hq1 hq2

theorem go_nodup (h : Heap) (hI : ForestInv h) (rank : Nat → Nat)
    (hrank : ∀ (j i c : Nat), LinkAt h j i c → rank c = rank j + 1)
    (f : Nat)
    (hrecN : ∀ (c : Nat) (sub : List (Nat × Nat)),
      destroyLevel h f c = some sub → sub.Nodup)
    (hrecM : ∀ (c : Nat) (sub : List (Nat × Nat)),
      destroyLevel h f c = some sub → ∀ x ∈ sub, Reach h c x.1)
    (r : Nat) (L : ActionMenuLevel) (hr : h[r]? = some L) :
    ∀ (its : List ActionMenuItem) (i0 : Nat) (vs : List (Nat × Nat)),
      (∀ (k : Nat) (it : ActionMenuItem), its[k]? = some it →
        (L.items.take L.num_items)[i0 + k]? = some it) →
      destroyItemsGo (destroyLevel h f) r its i0 = some vs →
      vs.Nodup ∧ ∀ x ∈ vs, (x.1 = r ∧ i0 ≤ x.2) ∨
        ∃ (k c : Nat), (∃ it, its[k]? = some it ∧ it.child = some c) ∧
          Reach h c x.1
  | [], i0, vs, _, hgo => by
    rw [destroyItemsGo] at hgo
    rw [← Option.some.inj hgo]
    exact ⟨List.nodup_nil, by simp⟩
  | it0 :: rest, i0, vs, hpos, hgo => by
    obtain ⟨sub, tail, hsub, htail, hvs⟩ :=
      go_cons_inv (destroyLevel h f) r it0 rest i0 vs hgo
    subst hvs
    have hposrest : ∀ (k : Nat) (it : ActionMenuItem), rest[k]? = some it →
        (L.items.take L.num_items)[(i0 + 1) + k]? = some it := by
      intro k it hk
      have hh := hpos (k + 1) it (by simpa using hk)
      have harith : i0 + (k + 1) = (i0 + 1) + k := by omega
      rw [harith] at hh
      exact hh
    obtain ⟨tailN, tailSrc⟩ := go_nodup h hI rank hrank f hrecN hrecM r L hr
      rest (i0 + 1) tail hposrest htail
    have hnotail : ((r : Nat), i0) ∉ tail := by
      intro hmem
      rcases tailSrc _ hmem with ⟨_, hle⟩ | ⟨k, c, ⟨it, hk, hc⟩, hreach⟩
      · simp at hle
      · have hlink : LinkAt h r ((i0 + 1) + k) c :=
          linkAt_of_take h r _ c L it hr (hposrest k it hk) hc
        have h1 := hrank r _ c hlink
        have h2 := reach_rank_le h rank hrank c r (by simpa using hreach)
        omega
    cases hchild : it0.child with
    | none =>
      rw [hchild] at hsub
      have hsubnil : sub = [] := (Option.some.inj hsub).symm
      subst hsubnil
      refine ⟨?_, ?_⟩
      · simp only [List.nil_append]
        exact List.nodup_cons.2 ⟨hnotail, tailN⟩
      · intro x hx
        simp only [List.nil_append] at hx
        rcases List.mem_cons.1 hx with hx' | hx'
        · subst hx'
          exact Or.inl ⟨rfl, Nat.le_refl _⟩
        · rcases tailSrc x hx' with ⟨h1, h2⟩ | ⟨k, c, ⟨it, hk, hc⟩, hre⟩
          · exact Or.inl ⟨h1, by omega⟩
          · exact Or.inr ⟨k + 1, c, ⟨it, by simpa using hk, hc⟩, hre⟩
    | some c0 =>
      rw [hchild] at hsub
      have hlink0 : LinkAt h r i0 c0 := by
        have hh := hpos 0 it0 (by simp)
        rw [Nat.add_zero] at hh
        exact linkAt_of_take h r i0 c0 L it0 hr hh hchild
      have subN := hrecN c0 sub hsub
      have subM := hrecM c0 sub hsub
      have hsubfst : ∀ x ∈ sub, x.1 ≠ r := by
        intro x hx hxr
        have hre := subM x hx
        rw [hxr] at hre
        have h1 := hrank r i0 c0 hlink0
        have h2 := reach_rank_le h rank hrank c0 r hre
        omega
      refine ⟨?_, ?_⟩
      · refine List.nodup_append.2 ⟨subN, List.nodup_cons.2 ⟨hnotail, tailN⟩, ?_⟩
        intro x hxsub hxct
        rcases List.mem_cons.1 hxct with hx' | hx'
        · exact hsubfst x hxsub (by rw [hx'])
        · rcases tailSrc x hx' with ⟨h1, _⟩ | ⟨k, c, ⟨it, hk, hc⟩, hreach⟩
          · exact hsubfst x hxsub h1
          · have hlink : LinkAt h r ((i0 + 1) + k) c :=
              linkAt_of_take h r _ c L it hr (hposrest k it hk) hc
            have hne : c0 ≠ c := by
              intro hcc
              subst hcc
              have := hI.linkUnique r i0 r ((i0 + 1) + k) c0 hlink0 hlink
              omega
            exact reach_disjoint h rank hrank hI r i0 ((i0 + 1) + k) c0 c
              hlink0 hlink hne (rank x.1) x.1 rfl (subM x hxsub) hreach
      · intro x hx
        rcases List.mem_append.1 hx with hx' | hx'
        · exact Or.inr ⟨0, c0, ⟨it0, by simp, hchild⟩, subM x hx'⟩
        · rcases List.mem_cons.1 hx' with hx'' | hx''
          · subst hx''
            exact Or.inl ⟨rfl, Nat.le_refl _⟩
          · rcases tailSrc x hx'' with ⟨h1, h2⟩ | ⟨k, c, ⟨it, hk, hc⟩, hre⟩
            · exact Or.inl ⟨h1, by omega⟩
            · exact Or.inr ⟨k + 1, c, ⟨it, by simpa using hk, hc⟩, hre⟩

theorem destroy_nodup (h : Heap) (hI : ForestInv h) (rank : Nat → Nat)
    (hrank : ∀ (j i c : Nat), LinkAt h j i c → rank c = rank j + 1) :
    ∀ (f r : Nat) (vs : List (Nat × Nat)), destroyLevel h f r = some vs →
      vs.Nodup := by
  intro f
  induction f with
  | zero =>
    intro r vs hd
    rw [destroyLevel] at hd
    cases hd
  | succ f ih =>
    intro r vs hd
    rw [destroyLevel] at hd
    cases hr : h[r]? with
    | none => rw [hr] at hd; cases hd
    | some L =>
      rw [hr] at hd
      have hrecM : ∀ (c : Nat) (sub : List (Nat × Nat)),
          destroyLevel h f c = some sub → ∀ x ∈ sub, Reach h c x.1 := by
        intro c sub hsub x hx
        obtain ⟨_, _, hre, _⟩ := destroy_mem_reach h hI f c sub hsub x hx
        exact hre
      have hpos : ∀ (k : Nat) (it : ActionMenuItem),
          (L.items.take L.num_items)[k]? = some it →
          (L.items.take L.num_items)[0 + k]? = some it := by
        intro k it hk
        rw [Nat.zero_add]
        exact hk
      exact (go_nodup h hI rank hrank f ih hrecM r L hr _ 0 vs hpos hd).1

theorem destroy_some (h : Heap) (hI : ForestInv h) (rank : Nat → Nat)
    (hrank : ∀ (j i c : Nat), LinkAt h j i c → rank c = rank j + 1)
    (B : Nat) (hB : ∀ (x : Nat), x < h.length → rank x ≤ B) :
    ∀ (f r : Nat) (L : ActionMenuLevel), h[r]? = some L →
      B < f + rank r → (destroyLevel h f r).isSome = true := by
  intro f
  induction f with
  | zero =>
    intro r L hr hlt
    have := hB r (arena_get_lt h r L hr)
    exfalso
    omega
  | succ f ih =>
    intro r L hr hlt
    rw [destroyLevel, hr]
    refine go_some (destroyLevel h f) r _ 0 ?_
    intro k it c hk hc
    have hlink : LinkAt h r k c := linkAt_of_take h r k c L it hr hk hc
    have hclt : c < h.length := hI.childValid r k c hlink
    obtain ⟨C, hC⟩ := arena_get_exists h c hclt
    refine ih c C hC ?_
    have := hrank r k c hlink
    omega

theorem linkAt_set_append_to (h : Heap) (l : Nat) (L R : ActionMenuLevel)
    (it0 : ActionMenuItem) (hl : h[l]? = some L)
    (hitems : R.items = L.items ++ [it0]) (j i c : Nat)
    (hlink : LinkAt (h.set l R) j i c) :
    LinkAt h j i c ∨ (j = l ∧ i = L.items.length ∧ it0.child = some c) := by
  obtain ⟨L', it, hj, hi, hc⟩ := hlink
  rcases arena_get_set_elim' h l j R L' hj with ⟨hlj, hLR, _⟩ | hj'
  · subst hlj
    subst hLR
    rw [hitems] at hi
    rcases arena_get_append_elim' L.items it0 it i hi with ⟨_, hg⟩ | ⟨hlen, hit⟩
    · exact Or.inl ⟨L, it, hl, hg, hc⟩
    · subst hit
      exact Or.inr ⟨rfl, hlen, hc⟩
  · exact Or.inl ⟨L', it, hj', hi, hc⟩

theorem mem_foldr_append {α β : Type} (f : β → List α) :
    ∀ (l : List β) (x : α),
      x ∈ l.foldr (fun j acc => f j ++ acc) [] ↔ ∃ j ∈ l, x ∈ f j
  | [], x => by simp
  | b :: l, x => by
    simp only [List.foldr_cons, List.mem_append, List.mem_cons]
    rw [mem_foldr_append f l x]
    constructor
    · rintro (hx | ⟨j, hj, hx⟩)
      · exact ⟨b, Or.inl rfl, hx⟩
      · exact ⟨j, Or.inr hj, hx⟩
    · rintro ⟨j, hj | hj, hx⟩
      · subst hj
        exact Or.inl hx
      · exact Or.inr ⟨j, hj, hx⟩

theorem mem_levelLinks (h : Heap) (j' j i c : Nat) :
    (j, i, c) ∈ levelLinks h j' ↔ j' = j ∧ LinkAt h j i c := by
  constructor
  · intro hx
    cases hL : h[j']? with
    | none => simp [levelLinks, hL] at hx
    | some L =>
      simp only [levelLinks, hL] at hx
      obtain ⟨a, _, hfa⟩ := List.mem_filterMap.1 hx
      cases hit : L.items[a]? with
      | none => simp [hit] at hfa
      | some it =>
        cases hc : it.child with
        | none => simp [hit, hc] at hfa
        | some c' =>
          simp only [hit, hc, Option.some.injEq, Prod.mk.injEq] at hfa
          obtain ⟨h1, h2, h3⟩ := hfa
          subst h1
          subst h2
          subst h3
          exact ⟨rfl, L, it, hL, hit, hc⟩
  · rintro ⟨hjj, L, it, hL, hit, hc⟩
    subst hjj
    simp only [levelLinks, hL]
    refine List.mem_filterMap.2
      ⟨i, List.mem_range.2 (arena_get_lt L.items i it hit), ?_⟩
    simp [hit, hc]

theorem heapLinks_iff (h : Heap) (j i c : Nat) :
    (j, i, c) ∈ heapLinks h ↔ LinkAt h j i c := by
  rw [heapLinks, mem_foldr_append]
  constructor
  · rintro ⟨j', _, hx⟩
    exact ((mem_levelLinks h j' j i c).1 hx).2
  · intro hlk
    have hlt : j < h.length := by
      obtain ⟨L, it, hL, _, _⟩ := hlk
      exact arena_get_lt h j L hL
    exact ⟨j, List.mem_range.2 hlt, (mem_levelLinks h j j i c).2 ⟨rfl, hlk⟩⟩

theorem nodup_map_inj {α β : Type} (f : α → β) :
    ∀ (l : List α), (l.map f).Nodup → ∀ x ∈ l, ∀ y ∈ l, f x = f y → x = y
  | [], _, x, hx, _, _, _ => absurd hx (List.not_mem_nil x)
  | a :: l, hnd, x, hx, y, hy, hfxy => by
    rw [List.map_cons, List.nodup_cons] at hnd
    obtain ⟨hna, hnd'⟩ := hnd
    rcases List.mem_cons.1 hx with hxa | hx' <;>
      rcases List.mem_cons.1 hy with hya | hy'
    · rw [hxa, hya]
    · subst hxa
      exfalso
      apply hna
      rw [hfxy]
      exact List.mem_map.2 ⟨y, hy', rfl⟩
    · subst hya
      exfalso
      apply hna
      rw [← hfxy]
      exact List.mem_map.2 ⟨x, hx', rfl⟩
    · exact nodup_map_inj f l hnd' x hx' y hy' hfxy

theorem numLen_step (h : Heap) (op : BuilderOp)
    (hN : ∀ (j : Nat) (L : ActionMenuLevel), h[j]? = some L →
      L.num_items = L.items.length) :
    ∀ (j : Nat) (L : ActionMenuLevel), (stepOp h op)[j]? = some L →
      L.num_items = L.items.length := by
  rcases stepOp_shape h op with heq | ⟨cap, heq⟩ | ⟨l, L0, mode, hl, heq⟩ |
    ⟨l, L0, it0, hl, hcap, hch, heq⟩ | ⟨l, c0, C, hc0, heq⟩ |
    ⟨l, L0, lb, lOk, hop, hlb, hl, hcap, heq⟩ |
    ⟨l, c0, L0, C, lb, lOk, hop, hlb, hcl, hl, hc0, hcap, heq⟩ <;> rw [heq]
  · exact hN
  · intro j L hj
    rcases arena_get_append_elim' h _ L j hj with ⟨_, hg⟩ | ⟨_, hLN⟩
    · exact hN j L hg
    · subst hLN
      rfl
  · intro j L hj
    rcases arena_get_set_elim' h l j _ L hj with ⟨_, hLR, _⟩ | hj'
    · subst hLR
      exact hN l L0 hl
    · exact hN j L hj'
  · intro j L hj
    rcases arena_get_set_elim' h l j _ L hj with ⟨_, hLR, _⟩ | hj'
    · subst hLR
      have hn := hN l L0 hl
      simp [hn]
    · exact hN j L hj'
  · intro j L hj
    rcases arena_get_set_elim' h c0 j _ L hj with ⟨_, hLR, _⟩ | hj'
    · subst hLR
      exact hN c0 C hc0
    · exact hN j L hj'
  · intro j L hj
    rcases arena_get_set_elim' h l j _ L hj with ⟨_, hLR, _⟩ | hj'
    · subst hLR
      have hn := hN l L0 hl
      simp [hn]
    · exact hN j L hj'
  · intro j L hj
    rcases arena_get_set_elim' (h.set c0
        { C with parent := some l, level := (L0.level + 1) % 65536 }) l j _ L
        hj with ⟨_, hLR, _⟩ | hj'
    · subst hLR
      have hn := hN l L0 hl
      simp [hn]
    · rcases arena_get_set_elim' h c0 j _ L hj' with ⟨_, hLR, _⟩ | hj''
      · subst hLR
        exact hN c0 C hc0
      · exact hN j L hj''

theorem childValid_step (h : Heap) (op : BuilderOp)
    (hC : ∀ (j i c : Nat), LinkAt h j i c → c < h.length) :
    ∀ (j i c : Nat), LinkAt (stepOp h op) j i c →
      c < (stepOp h op).length := by
  rcases stepOp_shape h op with heq | ⟨cap, heq⟩ | ⟨l, L0, mode, hl, heq⟩ |
    ⟨l, L0, it0, hl, hcap, hch, heq⟩ | ⟨l, c0, C, hc0, heq⟩ |
    ⟨l, L0, lb, lOk, hop, hlb, hl, hcap, heq⟩ |
    ⟨l, c0, L0, C, lb, lOk, hop, hlb, hcl, hl, hc0, hcap, heq⟩ <;>
    rw [heq] <;> intro j i c hlink
  · exact hC j i c hlink
  · rw [List.length_append]
    have := hC j i c ((linkAt_append_level_iff h _ rfl j i c).1 hlink)
    omega
  · rw [List.length_set]
    exact hC j i c
      ((linkAt_set_iff h l L0 { L0 with display_mode := mode } hl rfl
        j i c).1 hlink)
  · rw [List.length_set]
    rcases linkAt_set_append_to h l L0
        { L0 with items := L0.items ++ [it0],
                  num_items := L0.num_items + 1 } it0 hl rfl j i c hlink with
      h' | ⟨_, _, hc'⟩
    · exact hC j i c h'
    · rw [hch] at hc'
      cases hc'
  · rw [List.length_set]
    exact hC j i c
      ((linkAt_set_iff h c0 C { C with parent := some l } hc0 rfl
        j i c).1 hlink)
  · rw [List.length_set]
    rcases linkAt_set_append_to h l L0
        { L0 with parent := some l, level := (L0.level + 1) % 65536,
                  items := L0.items ++
                    [{ label := lb, action_data := none, cb := none,
                       child := some l }],
                  num_items := L0.num_items + 1 }
        { label := lb, action_data := none, cb := none, child := some l }
        hl rfl j i c hlink with h' | ⟨_, _, hc'⟩
    · exact hC j i c h'
    · have hlc : l = c := Option.some.inj hc'
      rw [← hlc]
      exact arena_get_lt h l L0 hl
  · rw [List.length_set, List.length_set]
    have hmidl : (h.set c0
        { C with parent := some l, level := (L0.level + 1) % 65536 })[l]? =
        some L0 := by
      rw [arena_get_set_ne h c0 l
        { C with parent := some l, level := (L0.level + 1) % 65536 } hcl]
      exact hl
    rcases linkAt_set_append_to (h.set c0
        { C with parent := some l, level := (L0.level + 1) % 65536 }) l L0
        { L0 with items := L0.items ++
                    [{ label := lb, action_data := none, cb := none,
                       child := some c0 }],
                  num_items := L0.num_items + 1 }
        { label := lb, action_data := none, cb := none, child := some c0 }
        hmidl rfl j i c hlink with h' | ⟨_, _, hc'⟩
    · have hold := (linkAt_set_iff h c0 C
        { C with parent := some l, level := (L0.level + 1) % 65536 } hc0 rfl
        j i c).1 h'
      exact hC j i c hold
    · have hcc : c0 = c := Option.some.inj hc'
      rw [← hcc]
      exact arena_get_lt h c0 C hc0

theorem numLen_run : ∀ (ops : List BuilderOp) (h : Heap),
    (∀ (j : Nat) (L : ActionMenuLevel), h[j]? = some L →
      L.num_items = L.items.length) →
    ∀ (j : Nat) (L : ActionMenuLevel), (runFrom h ops)[j]? = some L →
      L.num_items = L.items.length
  | [], _, hN => hN
  | op :: rest, h, hN =>
    numLen_run rest (stepOp h op) (numLen_step h op hN)

theorem childValid_run : ∀ (ops : List BuilderOp) (h : Heap),
    (∀ (j i c : Nat), LinkAt h j i c → c < h.length) →
    ∀ (j i c : Nat), LinkAt (runFrom h ops) j i c →
      c < (runFrom h ops).length
  | [], _, hC => hC
  | op :: rest, h, hC =>
    childValid_run rest (stepOp h op) (childValid_step h op hC)

theorem numLen_buildHeap (ops : List BuilderOp) :
    ∀ (j : Nat) (L : ActionMenuLevel), (buildHeap ops)[j]? = some L →
      L.num_items = L.items.length :=
  numLen_run ops [] (by intro j L hj; simp at hj)

theorem childValid_buildHeap (ops : List BuilderOp) :
    ∀ (j i c : Nat), LinkAt (buildHeap ops) j i c →
      c < (buildHeap ops).length :=
  childValid_run ops [] (by
    rintro j i c ⟨L, it, hj, _, _⟩
    simp at hj)

theorem destroy_correct (h : Heap) (hI : ForestInv h) (r : Nat)
    (hr : r < h.length) :
    ∃ (fuel : Nat) (vs : List (Nat × Nat)),
      destroyLevel h fuel r = some vs ∧ vs.Nodup ∧
      (∀ (l i : Nat), (l, i) ∈ vs ↔ ∃ L, h[l]? = some L ∧ Reach h r l ∧
        i < L.num_items) ∧
      ∀ (l i c : Nat), (l, i) ∈ vs → LinkAt h l i c →
        ∃ pre post, vs = pre ++ (l, i) :: post ∧
          ∀ (m j : Nat) (M : ActionMenuLevel), Reach h c m →
            h[m]? = some M → j < M.num_items → (m, j) ∈ pre := by
  obtain ⟨rank, hrank⟩ := hI.ranked
  set B := ((List.range h.length).map rank).foldr max 0 with hBdef
  have hB : ∀ (x : Nat), x < h.length → rank x ≤ B := by
    intro x hx
    exact mem_le_foldr_max _ (rank x) (List.mem_map.2 ⟨x, List.mem_range.2 hx, rfl⟩)
  obtain ⟨L0, hL0⟩ := arena_get_exists h r hr
  have hsome := destroy_some h hI rank hrank B hB (B + 1) r L0 hL0 (by omega)
  obtain ⟨vs, hd⟩ := Option.isSome_iff_exists.1 hsome
  refine ⟨B + 1, vs, hd, destroy_nodup h hI rank hrank (B + 1) r vs hd, ?_, ?_⟩
  · intro l i
    constructor
    · intro hm
      obtain ⟨L, h1, h2, h3⟩ := destroy_mem_reach h hI (B + 1) r vs hd (l, i) hm
      exact ⟨L, h1, h2, h3⟩
    · rintro ⟨L, h1, h2, h3⟩
      exact destroy_mem_of_reach h hI (B + 1) r vs hd l L i h2 h1 h3
  · intro l i c hm hlk
    obtain ⟨L', hL', hreach, hi⟩ := destroy_mem_reach h hI (B + 1) r vs hd (l, i) hm
    obtain ⟨f', vs', A, Bs, hd2, hcat⟩ := destroy_sub h (B + 1) r vs hd l hreach
    cases f' with
    | zero => rw [destroyLevel] at hd2; cases hd2
    | succ f'' =>
      rw [destroyLevel] at hd2
      rw [hL'] at hd2
      obtain ⟨L2, it, hl2, hit, hc⟩ := hlk
      have hL2 : L2 = L' := Option.some.inj (hl2.symm.trans hL')
      subst hL2
      have hit' := arena_get_take_of L2.num_items L2.items i it hi hit
      obtain ⟨A', sub, B', hrec, hvs'⟩ :=
        go_decomp (destroyLevel h f'') l _ 0 vs' hd2 i it c hit' hc
      refine ⟨A ++ (A' ++ sub), B' ++ Bs, ?_, ?_⟩
      · rw [hcat, hvs']
        simp
      · intro m j M hrm hM hj
        have hms : (m, j) ∈ sub :=
          destroy_mem_of_reach h hI f'' c sub hrec m M j hrm hM hj
        simp only [List.mem_append]
        exact Or.inr (Or.inr hms)

/-- Claim C1: for every hierarchy built via the builder operations —
any builder call sequence, in any order (top-down or bottom-up), whose
resulting parent-child links form a hierarchy: no level is the child
of two items (the link targets are pairwise distinct) and some rank
function grows by one along every link (so the links close no cycle)
— and every root level in the arena, `action_menu_hierarchy_destroy`
with enough fuel succeeds and invokes the per-item visitor exactly
once per item of the hierarchy: the visit list has no duplicates and
contains exactly the populated item slots of the levels reachable from
the root, so its length is the total number of items across all levels
of the hierarchy; the visitor for any item with a non-null child runs
only after every item within that child's subtree has been visited
(post-order); and calling it with an absent (`NULL`) root is a no-op
for any fuel.  Call sequences whose links alias one child under two
items or close a cycle do not build a hierarchy (and the C recursion
double-visits or never terminates on them), so they are exactly the
ones excluded. -/
theorem C1_destroy_postorder (ops : List BuilderOp) (rank : Nat → Nat)
    (hrank : ∀ t ∈ heapLinks (buildHeap ops), rank t.2.2 = rank t.1 + 1)
    (huniq : ((heapLinks (buildHeap ops)).map fun t => t.2.2).Nodup)
    (r : Nat) (hr : r < (buildHeap ops).length) :
    (∀ (fuel : Nat),
      action_menu_hierarchy_destroy (buildHeap ops) fuel none = some []) ∧
    ∃ (fuel : Nat) (vs : List (Nat × Nat)),
      action_menu_hierarchy_destroy (buildHeap ops) fuel (some r) = some vs ∧
      vs.Nodup ∧
      (∀ (l i : Nat), (l, i) ∈ vs ↔ ∃ L, (buildHeap ops)[l]? = some L ∧
        Reach (buildHeap ops) r l ∧ i < L.num_items) ∧
      ∀ (l i c : Nat), (l, i) ∈ vs → LinkAt (buildHeap ops) l i c →
        ∃ pre post, vs = pre ++ (l, i) :: post ∧
          ∀ (m j : Nat) (M : ActionMenuLevel), Reach (buildHeap ops) c m →
            (buildHeap ops)[m]? = some M → j < M.num_items → (m, j) ∈ pre := by
  have hF : ForestInv (buildHeap ops) := by
    refine ⟨numLen_buildHeap ops, childValid_buildHeap ops, ?_, ⟨rank, ?_⟩⟩
    · intro j1 i1 j2 i2 c hl1 hl2
      have hm1 := (heapLinks_iff (buildHeap ops) j1 i1 c).2 hl1
      have hm2 := (heapLinks_iff (buildHeap ops) j2 i2 c).2 hl2
      have heq := nodup_map_inj (fun (t : Nat × Nat × Nat) => t.2.2) _
        huniq _ hm1 _ hm2 rfl
      exact ⟨congrArg (fun (t : Nat × Nat × Nat) => t.1) heq,
        congrArg (fun (t : Nat × Nat × Nat) => t.2.1) heq⟩
    · intro j i c hlk
      exact hrank (j, i, c) ((heapLinks_iff (buildHeap ops) j i c).2 hlk)
  refine ⟨fun fuel => rfl, ?_⟩
  obtain ⟨fuel, vs, hd, hN, hmem, hpost⟩ :=
    destroy_correct (buildHeap ops) hF r hr
  exact ⟨fuel, vs, hd, hN, hmem, hpost⟩

theorem C1_witness :
    action_menu_hierarchy_destroy (buildHeap opsBottomUp) 1 none = some [] :=
  (C1_destroy_postorder opsBottomUp (fun x => x) (by decide) (by decide) 0
    (by decide)).1 1
